import Mathlib

/-!
# Terraform core: diff model, hook protocol, cancellation hook

A shallow embedding of `terraform/hook.go`, `terraform/hook_stop.go` and of the
diff model that `terraform/diff_test.go` exercises.

Conventions of the embedding:

* a Go pointer `*T` is `Option T` (`none` is `nil`);
* a Go `error` is `Option String` (`none` is `nil`, `some msg` an error value);
* a Go `map[string]V` is the list of its entries, in some iteration order;
* a Go panic is the `Except.error` branch carrying the panic value.
-/

namespace terraform

/-! ## Data model -/

/-- Go `error`: `none` is the nil error. -/
abbrev GoError := Option String

/-- Go `map[string]V`, as the list of its entries. -/
abbrev GoMap (V : Type) := List (String × V)

/-- Keys of a map, in iteration order. -/
def GoMap.keys {V : Type} (m : GoMap V) : List String := m.map Prod.fst

/-- Map lookup `m[k]`: the entry stored under `k`, if any. -/
def GoMap.lookup {V : Type} (m : GoMap V) (k : String) : Option V :=
  (m.find? (fun kv => kv.1 == k)).map Prod.snd

/-- A list of entries is a map when no key occurs twice. -/
def GoMap.WF {V : Type} (m : GoMap V) : Prop := (GoMap.keys m).Nodup

/-- `EphemeralState` (spec §3): transient, process-lifetime-only data. -/
structure EphemeralState where
  ConnInfo : GoMap String
  deriving DecidableEq, Repr

/-- `InstanceState` (spec §3; the tests build it with `ID` and `Attributes`). -/
structure InstanceState where
  ID : String
  Attributes : GoMap String
  Ephemeral : EphemeralState
  deriving DecidableEq, Repr

/-- `ResourceAttrDiff`, as built in `diff_test.go` (spec §3 `AttributeDiff`). -/
structure ResourceAttrDiff where
  Old : String
  New : String
  NewComputed : Bool
  RequiresNew : Bool
  NewRemoved : Bool
  deriving DecidableEq, Repr

/-- `InstanceDiff`, as built in `diff_test.go` (spec §3). -/
structure InstanceDiff where
  Attributes : GoMap ResourceAttrDiff
  Destroy : Bool
  deriving DecidableEq, Repr

/-- `Diff`, as built in `diff_test.go`: resource address to `*InstanceDiff`. -/
structure Diff where
  Resources : GoMap (Option InstanceDiff)
  deriving DecidableEq, Repr

/-! ## hook.go -/

/-- `type HookAction byte`. -/
abbrev HookAction := Fin 256

/-- `HookActionContinue HookAction = iota`. -/
def HookActionContinue : HookAction := 0

/-- `HookActionHalt`, the second constant of the `iota` block. -/
def HookActionHalt : HookAction := 1

/-- `handleHook` turns hook actions into panics: `Except.error v` is
`panic(v)`, `Except.ok ()` is a normal return. The `err != nil` branch of the
source is empty (`// TODO: handle errors`), and the `switch` has no default. -/
def handleHook (a : HookAction) (err : GoError) : Except HookAction Unit :=
  let _ := err
  if a = HookActionContinue then Except.ok ()
  else if a = HookActionHalt then Except.error HookActionHalt
  else Except.ok ()

/-! ## hook_stop.go -/

/-- `stopHook`: the `stop uint32` field. -/
structure stopHook where
  stop : Nat
  deriving DecidableEq, Repr

namespace stopHook

/-- `Reset`: `atomic.StoreUint32(&h.stop, 0)`. -/
def Reset (_h : stopHook) : stopHook := { stop := 0 }

/-- `Stop`: `atomic.StoreUint32(&h.stop, 1)`. -/
def Stop (_h : stopHook) : stopHook := { stop := 1 }

/-- `Stopped`: `atomic.LoadUint32(&h.stop) == 1`. -/
def Stopped (h : stopHook) : Bool := h.stop == 1

/-- `hook`: halt when stopped, continue otherwise, never an error. -/
def hook (h : stopHook) : HookAction × GoError :=
  if h.Stopped then (HookActionHalt, none) else (HookActionContinue, none)

/-- `PreApply(string, *InstanceState, *InstanceDiff)`. -/
def PreApply (h : stopHook) (_n : String) (_s : Option InstanceState)
    (_d : Option InstanceDiff) : HookAction × GoError := h.hook

/-- `PostApply(string, *InstanceState, error)`. -/
def PostApply (h : stopHook) (_n : String) (_s : Option InstanceState)
    (_e : GoError) : HookAction × GoError := h.hook

/-- `PreDiff(string, *InstanceState)`. -/
def PreDiff (h : stopHook) (_n : String) (_s : Option InstanceState) :
    HookAction × GoError := h.hook

/-- `PostDiff(string, *InstanceDiff)`. -/
def PostDiff (h : stopHook) (_n : String) (_d : Option InstanceDiff) :
    HookAction × GoError := h.hook

/-- `PreProvisionResource(string, *InstanceState)`. -/
def PreProvisionResource (h : stopHook) (_n : String) (_s : Option InstanceState) :
    HookAction × GoError := h.hook

/-- `PostProvisionResource(string, *InstanceState)`. -/
def PostProvisionResource (h : stopHook) (_n : String) (_s : Option InstanceState) :
    HookAction × GoError := h.hook

/-- `PreProvision(string, string)`. -/
def PreProvision (h : stopHook) (_n : String) (_p : String) :
    HookAction × GoError := h.hook

/-- `PostProvision(string, string)`. -/
def PostProvision (h : stopHook) (_n : String) (_p : String) :
    HookAction × GoError := h.hook

/-- `PreRefresh(string, *InstanceState)`. -/
def PreRefresh (h : stopHook) (_n : String) (_s : Option InstanceState) :
    HookAction × GoError := h.hook

/-- `PostRefresh(string, *InstanceState)`. -/
def PostRefresh (h : stopHook) (_n : String) (_s : Option InstanceState) :
    HookAction × GoError := h.hook

end stopHook

/-! ## hook.go: NilHook -/

/-- `NilHook`: `type NilHook struct{}`. -/
structure NilHook where
  deriving DecidableEq, Repr

namespace NilHook

/-- `PreApply(string, *InstanceState, *InstanceDiff)`. -/
def PreApply (_h : NilHook) (_n : String) (_s : Option InstanceState)
    (_d : Option InstanceDiff) : HookAction × GoError := (HookActionContinue, none)

/-- `PostApply(string, *InstanceState, error)`. -/
def PostApply (_h : NilHook) (_n : String) (_s : Option InstanceState)
    (_e : GoError) : HookAction × GoError := (HookActionContinue, none)

/-- `PreDiff(string, *InstanceState)`. -/
def PreDiff (_h : NilHook) (_n : String) (_s : Option InstanceState) :
    HookAction × GoError := (HookActionContinue, none)

/-- `PostDiff(string, *InstanceDiff)`. -/
def PostDiff (_h : NilHook) (_n : String) (_d : Option InstanceDiff) :
    HookAction × GoError := (HookActionContinue, none)

/-- `PreProvisionResource(string, *InstanceState)`. -/
def PreProvisionResource (_h : NilHook) (_n : String) (_s : Option InstanceState) :
    HookAction × GoError := (HookActionContinue, none)

/-- `PostProvisionResource(string, *InstanceState)`. -/
def PostProvisionResource (_h : NilHook) (_n : String) (_s : Option InstanceState) :
    HookAction × GoError := (HookActionContinue, none)

/-- `PreProvision(string, string)`. -/
def PreProvision (_h : NilHook) (_n : String) (_p : String) :
    HookAction × GoError := (HookActionContinue, none)

/-- `PostProvision(string, string)`. -/
def PostProvision (_h : NilHook) (_n : String) (_p : String) :
    HookAction × GoError := (HookActionContinue, none)

/-- `PreRefresh(string, *InstanceState)`. -/
def PreRefresh (_h : NilHook) (_n : String) (_s : Option InstanceState) :
    HookAction × GoError := (HookActionContinue, none)

/-- `PostRefresh(string, *InstanceState)`. -/
def PostRefresh (_h : NilHook) (_n : String) (_s : Option InstanceState) :
    HookAction × GoError := (HookActionContinue, none)

end NilHook

/-! ## hook_mock.go

A method with a pointer receiver that writes fields returns the updated
receiver next to its results. -/

/-- `MockHook`: the fields of the struct, in source order. -/
structure MockHook where
  PreApplyCalled : Bool
  PreApplyId : String
  PreApplyDiff : Option InstanceDiff
  PreApplyState : Option InstanceState
  PreApplyReturn : HookAction
  PreApplyError : GoError
  PostApplyCalled : Bool
  PostApplyId : String
  PostApplyState : Option InstanceState
  PostApplyError : GoError
  PostApplyReturn : HookAction
  PostApplyReturnError : GoError
  PreDiffCalled : Bool
  PreDiffId : String
  PreDiffState : Option InstanceState
  PreDiffReturn : HookAction
  PreDiffError : GoError
  PostDiffCalled : Bool
  PostDiffId : String
  PostDiffDiff : Option InstanceDiff
  PostDiffReturn : HookAction
  PostDiffError : GoError
  PreProvisionResourceCalled : Bool
  PreProvisionResourceId : String
  PreProvisionInstanceState : Option InstanceState
  PreProvisionResourceReturn : HookAction
  PreProvisionResourceError : GoError
  PostProvisionResourceCalled : Bool
  PostProvisionResourceId : String
  PostProvisionInstanceState : Option InstanceState
  PostProvisionResourceReturn : HookAction
  PostProvisionResourceError : GoError
  PreProvisionCalled : Bool
  PreProvisionId : String
  PreProvisionProvisionerId : String
  PreProvisionReturn : HookAction
  PreProvisionError : GoError
  PostProvisionCalled : Bool
  PostProvisionId : String
  PostProvisionProvisionerId : String
  PostProvisionReturn : HookAction
  PostProvisionError : GoError
  PostRefreshCalled : Bool
  PostRefreshId : String
  PostRefreshState : Option InstanceState
  PostRefreshReturn : HookAction
  PostRefreshError : GoError
  PreRefreshCalled : Bool
  PreRefreshId : String
  PreRefreshState : Option InstanceState
  PreRefreshReturn : HookAction
  PreRefreshError : GoError
  deriving DecidableEq, Repr

namespace MockHook

/-- `PreApply(n, s, d)`. -/
def PreApply (h : MockHook) (n : String) (s : Option InstanceState)
    (d : Option InstanceDiff) : MockHook × HookAction × GoError :=
  let h := { h with PreApplyCalled := true }
  let h := { h with PreApplyId := n }
  let h := { h with PreApplyDiff := d }
  let h := { h with PreApplyState := s }
  (h, h.PreApplyReturn, h.PreApplyError)

/-- `PostApply(n, s, e)`. -/
def PostApply (h : MockHook) (n : String) (s : Option InstanceState)
    (e : GoError) : MockHook × HookAction × GoError :=
  let h := { h with PostApplyCalled := true }
  let h := { h with PostApplyId := n }
  let h := { h with PostApplyState := s }
  let h := { h with PostApplyError := e }
  (h, h.PostApplyReturn, h.PostApplyReturnError)

/-- `PreDiff(n, s)`. -/
def PreDiff (h : MockHook) (n : String) (s : Option InstanceState) :
    MockHook × HookAction × GoError :=
  let h := { h with PreDiffCalled := true }
  let h := { h with PreDiffId := n }
  let h := { h with PreDiffState := s }
  (h, h.PreDiffReturn, h.PreDiffError)

/-- `PostDiff(n, d)`. -/
def PostDiff (h : MockHook) (n : String) (d : Option InstanceDiff) :
    MockHook × HookAction × GoError :=
  let h := { h with PostDiffCalled := true }
  let h := { h with PostDiffId := n }
  let h := { h with PostDiffDiff := d }
  (h, h.PostDiffReturn, h.PostDiffError)

/-- `PreProvisionResource(id, s)`. -/
def PreProvisionResource (h : MockHook) (id : String) (s : Option InstanceState) :
    MockHook × HookAction × GoError :=
  let h := { h with PreProvisionResourceCalled := true }
  let h := { h with PreProvisionResourceId := id }
  let h := { h with PreProvisionInstanceState := s }
  (h, h.PreProvisionResourceReturn, h.PreProvisionResourceError)

/-- `PostProvisionResource(id, s)`. -/
def PostProvisionResource (h : MockHook) (id : String) (s : Option InstanceState) :
    MockHook × HookAction × GoError :=
  let h := { h with PostProvisionResourceCalled := true }
  let h := { h with PostProvisionResourceId := id }
  let h := { h with PostProvisionInstanceState := s }
  (h, h.PostProvisionResourceReturn, h.PostProvisionResourceError)

/-- `PreProvision(id, provId)`. -/
def PreProvision (h : MockHook) (id provId : String) :
    MockHook × HookAction × GoError :=
  let h := { h with PreProvisionCalled := true }
  let h := { h with PreProvisionId := id }
  let h := { h with PreProvisionProvisionerId := provId }
  (h, h.PreProvisionReturn, h.PreProvisionError)

/-- `PostProvision(id, provId)`. -/
def PostProvision (h : MockHook) (id provId : String) :
    MockHook × HookAction × GoError :=
  let h := { h with PostProvisionCalled := true }
  let h := { h with PostProvisionId := id }
  let h := { h with PostProvisionProvisionerId := provId }
  (h, h.PostProvisionReturn, h.PostProvisionError)

/-- `PreRefresh(n, s)`. -/
def PreRefresh (h : MockHook) (n : String) (s : Option InstanceState) :
    MockHook × HookAction × GoError :=
  let h := { h with PreRefreshCalled := true }
  let h := { h with PreRefreshId := n }
  let h := { h with PreRefreshState := s }
  (h, h.PreRefreshReturn, h.PreRefreshError)

/-- `PostRefresh(n, s)`. -/
def PostRefresh (h : MockHook) (n : String) (s : Option InstanceState) :
    MockHook × HookAction × GoError :=
  let h := { h with PostRefreshCalled := true }
  let h := { h with PostRefreshId := n }
  let h := { h with PostRefreshState := s }
  (h, h.PostRefreshReturn, h.PostRefreshError)

end MockHook

/-! ## hook_stop.go: sequences of invocations -/

/-- The invocations a stopHook can receive: the ten Hook callbacks (with the
arguments the embedding keeps apart from the result), `Reset`, `Stop` and
`Stopped`. -/
inductive StopOp where
  | PreApply (n : String) (s : Option InstanceState) (d : Option InstanceDiff)
  | PostApply (n : String) (s : Option InstanceState) (e : GoError)
  | PreDiff (n : String) (s : Option InstanceState)
  | PostDiff (n : String) (d : Option InstanceDiff)
  | PreProvisionResource (n : String) (s : Option InstanceState)
  | PostProvisionResource (n : String) (s : Option InstanceState)
  | PreProvision (n : String) (p : String)
  | PostProvision (n : String) (p : String)
  | PreRefresh (n : String) (s : Option InstanceState)
  | PostRefresh (n : String) (s : Option InstanceState)
  | Reset
  | Stop
  | Stopped
  deriving DecidableEq, Repr

/-- The receiver after one invocation. The callbacks and `Stopped` only load
the field (`atomic.LoadUint32`); `Reset` and `Stop` store to it. -/
def stopHook.step (h : stopHook) : StopOp → stopHook
  | StopOp.Reset => h.Reset
  | StopOp.Stop => h.Stop
  | _ => h

/-- The receiver after a sequence of invocations, oldest first. -/
def stopHook.run (h : stopHook) (ops : List StopOp) : stopHook :=
  ops.foldl stopHook.step h

/-- The zero value `stopHook{}`. -/
def stopHook.zero : stopHook := { stop := 0 }

/-- The sequence contains a `Stop` with no later `Reset`. -/
def stopRequested (ops : List StopOp) : Prop :=
  ∃ pre post, ops = pre ++ StopOp.Stop :: post ∧ StopOp.Reset ∉ post

/-! ## Diff model queries (terraform/diff.go is not among the sources) -/

/-- Modelled from the spec: the per-attribute test behind `InstanceDiff.Empty`
(`terraform/diff.go` is missing). Spec §3: an attribute entry is a no-op
change when "old equals new and not newComputed". -/
def ResourceAttrDiff.noChange (a : ResourceAttrDiff) : Bool :=
  a.Old == a.New && !a.NewComputed

/-- The zero value `InstanceDiff{}`: nil attribute map, `Destroy` false. -/
def InstanceDiff.zero : InstanceDiff := { Attributes := [], Destroy := false }

/-- Modelled from the spec: `(*InstanceDiff).Empty` (`terraform/diff.go` is
missing). Spec §3: a nil InstanceDiff means "no change"; otherwise `Empty()`
is true iff `destroy` is false and every attribute entry is a no-op change. -/
def InstanceDiff.Empty : Option InstanceDiff → Bool
  | none => true
  | some d => !d.Destroy && d.Attributes.all (fun kv => kv.2.noChange)

/-- Modelled from the spec: `(*InstanceDiff).RequiresNew` (`terraform/diff.go`
is missing). Spec §3/§8: false for a nil receiver, otherwise true iff any
attribute has `requiresNew` set. -/
def InstanceDiff.RequiresNew : Option InstanceDiff → Bool
  | none => false
  | some d => d.Attributes.any (fun kv => kv.2.RequiresNew)

/-- Modelled from the spec: the comparison behind `Same` on two non-nil diffs
(`terraform/diff.go` is missing). Spec §3: "the same destroy flag, the same
set of attribute keys, and for each key the same `requiresNew` flag"; old and
new values are not looked at. -/
def InstanceDiff.sameStructure (a b : InstanceDiff) : Bool :=
  a.Destroy == b.Destroy
    && (GoMap.keys a.Attributes).all (fun k => (GoMap.keys b.Attributes).contains k)
    && (GoMap.keys b.Attributes).all (fun k => (GoMap.keys a.Attributes).contains k)
    && (GoMap.keys a.Attributes).all (fun k =>
          (GoMap.lookup a.Attributes k).map (fun x => x.RequiresNew)
            == (GoMap.lookup b.Attributes k).map (fun x => x.RequiresNew))

/-- Modelled from the spec: `(*InstanceDiff).Same` (`terraform/diff.go` is
missing). Spec §3 reads a nil InstanceDiff as the zero value "no change", so a
nil side is compared as `InstanceDiff{}`; spec §8: "both nil → same". -/
def InstanceDiff.Same (d d2 : Option InstanceDiff) : Bool :=
  InstanceDiff.sameStructure (d.getD InstanceDiff.zero) (d2.getD InstanceDiff.zero)

/-- Modelled from the spec: `(*Diff).Empty` (`terraform/diff.go` is missing).
Spec §3: "`Empty()` holds iff every contained InstanceDiff is empty". -/
def Diff.Empty (d : Diff) : Bool :=
  d.Resources.all (fun kv => InstanceDiff.Empty kv.2)

/-! ## Binary encoding of a Diff (terraform/diff.go is not among the sources)

The spec (§4.1, §6) fixes only the contract of the encode/decode pair and
leaves the byte layout open. The layout below is the one this development
works with: every value is self-delimiting, a list is a run of `1`-tagged
items closed by a `0`, a character is three bytes, big-endian. -/

/-- A byte buffer (`bytes.Buffer`); every byte written is below 256. -/
abbrev Bytes := List Nat

/-- One byte per flag. -/
def encodeBool (b : Bool) : Bytes := [if b then 1 else 0]

/-- Reads back one flag byte. -/
def decodeBool : Bytes → Option (Bool × Bytes)
  | 0 :: r => some (false, r)
  | 1 :: r => some (true, r)
  | _ => none

/-- A character as the three bytes of its code point, most significant first. -/
def encodeChar (c : Char) : Bytes :=
  [c.toNat / 65536, c.toNat / 256 % 256, c.toNat % 256]

/-- Characters as `1`-tagged items, closed by `0`. -/
def encodeChars : List Char → Bytes
  | [] => [0]
  | c :: cs => 1 :: (encodeChar c ++ encodeChars cs)

/-- Reads characters up to the closing `0`. -/
def decodeChars : Bytes → Option (List Char × Bytes)
  | 0 :: r => some ([], r)
  | 1 :: b0 :: b1 :: b2 :: r =>
    match decodeChars r with
    | some (cs, r2) => some (Char.ofNat (b0 * 65536 + b1 * 256 + b2) :: cs, r2)
    | none => none
  | _ => none

/-- A string as its characters. -/
def encodeString (s : String) : Bytes := encodeChars s.data

/-- Reads back a string. -/
def decodeString (buf : Bytes) : Option (String × Bytes) :=
  match decodeChars buf with
  | some (cs, r) => some (String.mk cs, r)
  | none => none

/-- Map entries as `1`-tagged (key, value) items, closed by `0`. -/
def encodeEntries {V : Type} (enc : V → Bytes) : GoMap V → Bytes
  | [] => [0]
  | kv :: m => 1 :: (encodeString kv.1 ++ (enc kv.2 ++ encodeEntries enc m))

/-- Reads map entries up to the closing `0`; `fuel` bounds the number of
items read. -/
def decodeEntries {V : Type} (dec : Bytes → Option (V × Bytes)) :
    Nat → Bytes → Option (GoMap V × Bytes)
  | 0, _ => none
  | _ + 1, 0 :: r => some ([], r)
  | fuel + 1, 1 :: r =>
    match decodeString r with
    | none => none
    | some (k, r1) =>
      match dec r1 with
      | none => none
      | some (v, r2) =>
        match decodeEntries dec fuel r2 with
        | none => none
        | some (m, r3) => some ((k, v) :: m, r3)
  | _ + 1, _ => none

/-- A `ResourceAttrDiff`, field by field. -/
def encodeAttr (a : ResourceAttrDiff) : Bytes :=
  encodeString a.Old ++ (encodeString a.New ++ (encodeBool a.NewComputed
    ++ (encodeBool a.RequiresNew ++ encodeBool a.NewRemoved)))

/-- Reads back a `ResourceAttrDiff`. -/
def decodeAttr (buf : Bytes) : Option (ResourceAttrDiff × Bytes) :=
  match decodeString buf with
  | none => none
  | some (o, r1) =>
    match decodeString r1 with
    | none => none
    | some (n, r2) =>
      match decodeBool r2 with
      | none => none
      | some (c, r3) =>
        match decodeBool r3 with
        | none => none
        | some (q, r4) =>
          match decodeBool r4 with
          | none => none
          | some (x, r5) =>
            some ({ Old := o, New := n, NewComputed := c, RequiresNew := q,
                    NewRemoved := x }, r5)

/-- An `InstanceDiff`: its attribute map, then the destroy flag. -/
def encodeInstanceDiff (d : InstanceDiff) : Bytes :=
  encodeEntries encodeAttr d.Attributes ++ encodeBool d.Destroy

/-- Reads back an `InstanceDiff`. -/
def decodeInstanceDiff (fuel : Nat) (buf : Bytes) : Option (InstanceDiff × Bytes) :=
  match decodeEntries decodeAttr fuel buf with
  | none => none
  | some (m, r1) =>
    match decodeBool r1 with
    | none => none
    | some (b, r2) => some ({ Attributes := m, Destroy := b }, r2)

/-- A `*InstanceDiff`: `0` for nil, `1` followed by the value otherwise. -/
def encodeInstanceDiffPtr : Option InstanceDiff → Bytes
  | none => [0]
  | some d => 1 :: encodeInstanceDiff d

/-- Reads back a `*InstanceDiff`. -/
def decodeInstanceDiffPtr (fuel : Nat) : Bytes → Option (Option InstanceDiff × Bytes)
  | 0 :: r => some (none, r)
  | 1 :: r =>
    match decodeInstanceDiff fuel r with
    | none => none
    | some (d, r2) => some (some d, r2)
  | _ => none

/-- A `Diff`: its resource map. -/
def encodeDiff (d : Diff) : Bytes := encodeEntries encodeInstanceDiffPtr d.Resources

/-- Reads back a `Diff`. -/
def decodeDiff (fuel : Nat) (buf : Bytes) : Option (Diff × Bytes) :=
  match decodeEntries (decodeInstanceDiffPtr fuel) fuel buf with
  | none => none
  | some (m, r) => some ({ Resources := m }, r)

/-- Modelled from the spec: `WriteDiff(d, dst)` (`terraform/diff.go` is
missing). Spec §6: "an encode/decode pair over the Diff structure", the
encoding scheme being "an implementation choice". Appends the encoding of `d`
to the buffer; the result is the buffer and the returned error. -/
def WriteDiff (d : Diff) (dst : Bytes) : Bytes × GoError :=
  (dst ++ encodeDiff d, none)

/-- Modelled from the spec: `ReadDiff(src)` (`terraform/diff.go` is missing).
Reads one Diff from the front of the buffer; the result is the Diff read, the
returned error and the bytes left in the buffer. The number of items read is
bounded by the number of bytes available. -/
def ReadDiff (src : Bytes) : Option Diff × GoError × Bytes :=
  match decodeDiff src.length src with
  | some (d, r) => (some d, none, r)
  | none => (none, some "terraform: malformed diff", src)

/-! ## State model, apply engine and state persistence

`command/apply.go`, `terraform/context.go` and `terraform/state.go` are not
among the sources; `command/apply_test.go` drives them. The definitions of
this section follow spec §3 (state model), §4.4 (apply engine), §4.5 (state
persistence), §6 (exit signalling) and §7 (error handling). The provider and
the registered hooks are external collaborators: what they return during a
run is an input of the model. The spec leaves the state file format open
(§6: "a serialized State value"); the layout used here is the self-delimiting
one of the Diff encoding above. -/

/-- `ResourceState` (spec §3); `Typ` is the Go field `Type`. -/
structure ResourceState where
  Typ : String
  Dependencies : List String
  Primary : Option InstanceState
  Deposed : List InstanceState
  Provider : String
  deriving DecidableEq, Repr

/-- `ModuleState` (spec §3). -/
structure ModuleState where
  Path : List String
  Resources : GoMap ResourceState
  deriving DecidableEq, Repr

/-- `State` (spec §3). -/
structure State where
  Version : Int
  Serial : Int
  Modules : List ModuleState
  deriving DecidableEq, Repr

/-- Path of the root module, as the tests write it: `[]string{"root"}`. -/
def rootPath : List String := ["root"]

/-- The zero-value state a run starts from when no state file exists. -/
def State.empty : State := { Version := 0, Serial := 0, Modules := [] }

/-- Modelled from the spec: `(*State).RootModule` (`terraform/state.go` is
missing), used by `apply_test.go` to reach the resources of a state. Spec §3:
"root module has a single-element path". A state without a root module reads
as one with no resources. -/
def State.RootModule (s : State) : ModuleState :=
  (s.Modules.find? (fun m => m.Path == rootPath)).getD
    { Path := rootPath, Resources := [] }

/-- Replaces the resource map of the root module, adding the module when the
state has none. -/
def State.setRootResources (s : State) (rs : GoMap ResourceState) : State :=
  if s.Modules.any (fun m => m.Path == rootPath) then
    { s with Modules := (s.Modules.map
        (fun m => if m.Path == rootPath then { m with Resources := rs } else m)) }
  else
    { s with Modules := s.Modules ++ [{ Path := rootPath, Resources := rs }] }

/-- Map update `m[k] = v`: replaces the entry in place or appends a new one. -/
def GoMap.insert {V : Type} (m : GoMap V) (k : String) (v : V) : GoMap V :=
  match m with
  | [] => [(k, v)]
  | kv :: tl => if kv.1 == k then (k, v) :: tl else kv :: GoMap.insert tl k v

/-- Applies `f` to the entry of a resource in the root module (spec §3: the
state is "mutated in place, one ResourceState entry at a time"). A resource
not yet recorded gets a fresh entry of the given type first. -/
def State.updateResource (s : State) (addr typ : String)
    (f : ResourceState → ResourceState) : State :=
  let rs := s.RootModule.Resources
  let entry : ResourceState :=
    match GoMap.lookup rs addr with
    | some r => r
    | none => { Typ := typ, Dependencies := [], Primary := none, Deposed := [],
                Provider := "" }
  s.setRootResources (GoMap.insert rs addr (f entry))

/-- Modelled from the spec: the state update at the end of an apply cycle
(`terraform/context.go` is missing). Spec §4.4: "whatever InstanceState the
provider returned (including nil ...) replaces the resource's `primary`
state". -/
def State.setPrimary (s : State) (addr typ : String) (is : Option InstanceState) :
    State :=
  s.updateResource addr typ (fun r => { r with Primary := is })

/-- Modelled from the spec: parking the old instance at the start of a
create-before-destroy replacement (`terraform/context.go` is missing). Spec
§4.4: "the old instance parked in `deposed` until the replacement succeeds". -/
def State.park (s : State) (addr typ : String) : State :=
  s.updateResource addr typ (fun r => { r with Deposed := r.Deposed ++ r.Primary.toList })

/-- Modelled from the spec: the state update at the end of the cycle that
destroys a parked instance (`terraform/context.go` is missing). What the
provider returned replaces the parked instance, the last of `deposed`; nil
removes it (spec §3: `deposed` is "reconciled to empty once their replacement
is confirmed and the old instance destroyed"). -/
def State.setParked (s : State) (addr typ : String) (is : Option InstanceState) :
    State :=
  s.updateResource addr typ (fun r => { r with Deposed := r.Deposed.dropLast ++ is.toList })

/-- Modelled from the spec: the persisted copy of an instance state. Spec §3:
the `ephemeral` payload "is never included when the state is duplicated for
backup or written to the long-term record". -/
def InstanceState.clearEphemeral (i : InstanceState) : InstanceState :=
  { i with Ephemeral := { ConnInfo := [] } }

/-- The persisted copy of a resource state. -/
def ResourceState.clearEphemeral (r : ResourceState) : ResourceState :=
  { r with Primary := r.Primary.map InstanceState.clearEphemeral,
           Deposed := r.Deposed.map InstanceState.clearEphemeral }

/-- The persisted copy of a module state. -/
def ModuleState.clearEphemeral (m : ModuleState) : ModuleState :=
  { m with Resources := m.Resources.map (fun kv => (kv.1, kv.2.clearEphemeral)) }

/-- The persisted copy of a state: what reading a written state file yields. -/
def State.clearEphemeral (s : State) : State :=
  { s with Modules := s.Modules.map ModuleState.clearEphemeral }

/-- Modelled from the spec: the serial of the state a run persists
(`terraform/state.go` is missing). Spec §3: "`serial` increments on every
persisted change": when the persisted copy of the final state differs from
that of the loaded one, the serial goes up by one. -/
def State.nextSerial (loaded final : State) : State :=
  if final.clearEphemeral = loaded.clearEphemeral then final
  else { final with Serial := final.Serial + 1 }

/-! ### State file format -/

/-- A list as `1`-tagged items, closed by `0`. -/
def encodeList {α : Type} (enc : α → Bytes) : List α → Bytes
  | [] => [0]
  | x :: xs => 1 :: (enc x ++ encodeList enc xs)

/-- Reads list items up to the closing `0`; `fuel` bounds the number of items
read. -/
def decodeList {α : Type} (dec : Bytes → Option (α × Bytes)) :
    Nat → Bytes → Option (List α × Bytes)
  | 0, _ => none
  | _ + 1, 0 :: r => some ([], r)
  | fuel + 1, 1 :: r =>
    match dec r with
    | none => none
    | some (x, r1) =>
      match decodeList dec fuel r1 with
      | none => none
      | some (xs, r2) => some (x :: xs, r2)
  | _ + 1, _ => none

/-- The base-256 digits of `n`, least significant first, as `1`-tagged items
closed by `0`; `fuel` bounds the number of digits. -/
def encodeNatAux : Nat → Nat → Bytes
  | 0, _ => [0]
  | fuel + 1, n => if n = 0 then [0] else 1 :: (n % 256) :: encodeNatAux fuel (n / 256)

/-- A natural number; it has at most `n` digits. -/
def encodeNat (n : Nat) : Bytes := encodeNatAux n n

/-- Reads back a natural number. -/
def decodeNat : Bytes → Option (Nat × Bytes)
  | 0 :: r => some (0, r)
  | 1 :: b :: r =>
    match decodeNat r with
    | some (m, r2) => some (b + 256 * m, r2)
    | none => none
  | _ => none

/-- A Go `int`: a sign byte, then the absolute value. -/
def encodeInt (z : Int) : Bytes := (if z < 0 then 1 else 0) :: encodeNat z.natAbs

/-- Reads back a Go `int`. -/
def decodeInt : Bytes → Option (Int × Bytes)
  | 0 :: r =>
    match decodeNat r with
    | some (n, r2) => some ((n : Int), r2)
    | none => none
  | 1 :: r =>
    match decodeNat r with
    | some (n, r2) => some (-(n : Int), r2)
    | none => none
  | _ => none

/-- An `InstanceState`: ID and attributes. The ephemeral payload is not
written (spec §3). -/
def encodeInstanceState (i : InstanceState) : Bytes :=
  encodeString i.ID ++ encodeEntries encodeString i.Attributes

/-- Reads back an `InstanceState`; its ephemeral payload is empty. -/
def decodeInstanceState (fuel : Nat) (buf : Bytes) : Option (InstanceState × Bytes) :=
  match decodeString buf with
  | none => none
  | some (id, r1) =>
    match decodeEntries decodeString fuel r1 with
    | none => none
    | some (attrs, r2) =>
      some ({ ID := id, Attributes := attrs, Ephemeral := { ConnInfo := [] } }, r2)

/-- A `*InstanceState`: `0` for nil, `1` followed by the value otherwise. -/
def encodeInstanceStatePtr : Option InstanceState → Bytes
  | none => [0]
  | some i => 1 :: encodeInstanceState i

/-- Reads back a `*InstanceState`. -/
def decodeInstanceStatePtr (fuel : Nat) : Bytes → Option (Option InstanceState × Bytes)
  | 0 :: r => some (none, r)
  | 1 :: r =>
    match decodeInstanceState fuel r with
    | none => none
    | some (i, r2) => some (some i, r2)
  | _ => none

/-- A `ResourceState`, field by field. -/
def encodeResourceState (r : ResourceState) : Bytes :=
  encodeString r.Typ ++ (encodeList encodeString r.Dependencies
    ++ (encodeInstanceStatePtr r.Primary
      ++ (encodeList encodeInstanceState r.Deposed ++ encodeString r.Provider)))

/-- Reads back a `ResourceState`. -/
def decodeResourceState (fuel : Nat) (buf : Bytes) : Option (ResourceState × Bytes) :=
  match decodeString buf with
  | none => none
  | some (typ, r1) =>
    match decodeList decodeString fuel r1 with
    | none => none
    | some (deps, r2) =>
      match decodeInstanceStatePtr fuel r2 with
      | none => none
      | some (primary, r3) =>
        match decodeList (decodeInstanceState fuel) fuel r3 with
        | none => none
        | some (deposed, r4) =>
          match decodeString r4 with
          | none => none
          | some (provider, r5) =>
            some ({ Typ := typ, Dependencies := deps, Primary := primary,
                    Deposed := deposed, Provider := provider }, r5)

/-- A `ModuleState`: path, then the resource map. -/
def encodeModuleState (m : ModuleState) : Bytes :=
  encodeList encodeString m.Path ++ encodeEntries encodeResourceState m.Resources

/-- Reads back a `ModuleState`. -/
def decodeModuleState (fuel : Nat) (buf : Bytes) : Option (ModuleState × Bytes) :=
  match decodeList decodeString fuel buf with
  | none => none
  | some (path, r1) =>
    match decodeEntries (decodeResourceState fuel) fuel r1 with
    | none => none
    | some (rs, r2) => some ({ Path := path, Resources := rs }, r2)

/-- A `State`: version, serial, modules. -/
def encodeState (s : State) : Bytes :=
  encodeInt s.Version ++ (encodeInt s.Serial ++ encodeList encodeModuleState s.Modules)

/-- Reads back a `State`. -/
def decodeState (fuel : Nat) (buf : Bytes) : Option (State × Bytes) :=
  match decodeInt buf with
  | none => none
  | some (version, r1) =>
    match decodeInt r1 with
    | none => none
    | some (serial, r2) =>
      match decodeList (decodeModuleState fuel) fuel r2 with
      | none => none
      | some (ms, r3) => some ({ Version := version, Serial := serial, Modules := ms }, r3)

/-- Modelled from the spec: `WriteState` (`terraform/state.go` is missing).
Spec §6: the state file is "a serialized State value"; spec §3: the ephemeral
payload is never "written to the long-term record". -/
def WriteState (s : State) : Bytes := encodeState s

/-- Modelled from the spec: `ReadState` (`terraform/state.go` is missing): the
state a file holds, or nothing when the file is not a written state. The
number of items read is bounded by the number of bytes in the file. -/
def ReadState (buf : Bytes) : Option State :=
  match decodeState buf.length buf with
  | some (s, []) => some s
  | _ => none

/-! ### Apply engine -/

/-- What the collaborators of the engine return while one resource is
processed (spec §4.4, §6): the results of the registered hooks at the
checkpoints, in registration order; the diff the provider computes; the diff
of an existing plan, if any; whether the resource is configured for
create-before-destroy; the result of the provider's apply call for the diff,
should it be invoked; and, for a replacement, the hook results and the result
of the provider's apply call of the cycle that destroys the old instance. -/
structure ResourceStep where
  Addr : String
  Typ : String
  PreDiff : List (HookAction × GoError)
  Diff : Option InstanceDiff
  Plan : Option (Option InstanceDiff)
  PostDiff : List (HookAction × GoError)
  CreateBeforeDestroy : Bool
  PreApply : List (HookAction × GoError)
  ApplyState : Option InstanceState
  ApplyError : GoError
  PostApply : List (HookAction × GoError)
  PreDestroy : List (HookAction × GoError)
  DestroyState : Option InstanceState
  DestroyError : GoError
  PostDestroy : List (HookAction × GoError)

/-- The instance an apply cycle works on: the resource's primary instance, or
the old instance parked in `deposed`. -/
inductive CallTarget where
  | primary
  | deposed
  deriving DecidableEq, Repr

/-- A record of one provider apply call: the resource address, the instance
the cycle works on, and what the call returned. -/
structure ApplyCall where
  Addr : String
  Target : CallTarget
  State : Option InstanceState
  Error : GoError
  deriving DecidableEq, Repr

/-- In-memory state of a run: the state being built, the errors collected per
resource address, whether the run was halted, and the provider apply calls
made so far, oldest first. -/
structure EngineState where
  state : State
  errors : List (String × String)
  halted : Bool
  applyCalls : List ApplyCall

/-- A run starts with nothing collected. -/
def EngineState.init (s : State) : EngineState :=
  { state := s, errors := [], halted := false, applyCalls := [] }

/-- Modelled from the spec: one hook checkpoint (`terraform/context.go` is
missing). Spec §4.2: "the engine invokes them in registration order for every
call site"; each result goes through `handleHook`, so the checkpoint halts
exactly when some hook returned the halt action. True means halted. -/
def checkpoint : List (HookAction × GoError) → Bool
  | [] => false
  | r :: rs =>
    match handleHook r.1 r.2 with
    | Except.error _ => true
    | Except.ok _ => checkpoint rs

/-- Modelled from the spec: the provider's apply call and the state update
that follows it (`terraform/context.go` is missing). Spec §4.4: "regardless of
success or failure, whatever InstanceState the provider returned (including
nil ...) replaces" the state of the instance the cycle works on; spec §7:
per-resource errors are "collected and associated with their resource
address". -/
def callProvider (st : EngineState) (addr typ : String) (target : CallTarget)
    (ret : Option InstanceState) (err : GoError) : EngineState :=
  { st with
    state := match target with
      | CallTarget.primary => st.state.setPrimary addr typ ret
      | CallTarget.deposed => st.state.setParked addr typ ret
    errors := match err with
      | some e => st.errors ++ [(addr, e)]
      | none => st.errors
    applyCalls := st.applyCalls ++
      [{ Addr := addr, Target := target, State := ret, Error := err }] }

/-- Modelled from the spec: one InstanceDiff/apply cycle, the transitions
`diffed → applying → applied` or `failed` of §4.4 (`terraform/context.go` is
missing). A halt at the pre-apply hook skips the provider call and leaves the
prior state untouched; otherwise the old instance is parked when the cycle
opens a create-before-destroy replacement, the provider is called, and the
post-apply hook runs after the state update. -/
def applyCycle (st : EngineState) (addr typ : String)
    (pre post : List (HookAction × GoError)) (park : Bool) (target : CallTarget)
    (ret : Option InstanceState) (err : GoError) : EngineState :=
  if checkpoint pre then { st with halted := true }
  else
    let st0 : EngineState := if park then { st with state := st.state.park addr typ } else st
    let st1 := callProvider st0 addr typ target ret err
    if checkpoint post then { st1 with halted := true } else st1

/-- The resource has a primary instance recorded. -/
def State.hasPrimary (s : State) (addr : String) : Bool :=
  ((GoMap.lookup s.RootModule.Resources addr).bind (fun r => r.Primary)).isSome

/-- Modelled from the spec: applying a diff (`terraform/context.go` is
missing). Spec §4.4: an empty diff makes no provider call; "a resource whose
diff requires replacement (`RequiresNew()`) is modeled as destroy-then-create
(or create-before-destroy when so configured) — two InstanceDiff/apply cycles
chained for one resource address, with the old instance parked in `deposed`
until the replacement succeeds". The second cycle runs only when the first
one neither halted nor failed (`failed` ends the resource's state machine). A
resource without a recorded primary instance has nothing to replace and goes
through the one cycle that creates it. -/
def applyDiff (st : EngineState) (r : ResourceStep) (d : Option InstanceDiff) :
    EngineState :=
  if InstanceDiff.Empty d then st
  else if InstanceDiff.RequiresNew d && st.state.hasPrimary r.Addr then
    if r.CreateBeforeDestroy then
      let st1 := applyCycle st r.Addr r.Typ r.PreApply r.PostApply true
        CallTarget.primary r.ApplyState r.ApplyError
      if st1.halted || r.ApplyError.isSome then st1
      else applyCycle st1 r.Addr r.Typ r.PreDestroy r.PostDestroy false
        CallTarget.deposed r.DestroyState r.DestroyError
    else
      let st1 := applyCycle st r.Addr r.Typ r.PreDestroy r.PostDestroy false
        CallTarget.primary r.DestroyState r.DestroyError
      if st1.halted || r.DestroyError.isSome then st1
      else applyCycle st1 r.Addr r.Typ r.PreApply r.PostApply false
        CallTarget.primary r.ApplyState r.ApplyError
  else applyCycle st r.Addr r.Typ r.PreApply r.PostApply false
    CallTarget.primary r.ApplyState r.ApplyError

/-- Modelled from the spec: the per-resource state machine of §4.4
(`terraform/context.go` is missing). A halted run processes no further
resource; a halt at the pre-diff or post-diff hook stops the resource; a plan
diff that is not `Same` as the recomputed diff is reported as drift and leaves
the prior state untouched; otherwise the diff is applied. -/
def applyResource (st : EngineState) (r : ResourceStep) : EngineState :=
  if st.halted then st
  else if checkpoint r.PreDiff then { st with halted := true }
  else if checkpoint r.PostDiff then { st with halted := true }
  else
    match r.Plan with
    | some p =>
      if InstanceDiff.Same r.Diff p then applyDiff st r p
      else { st with errors := st.errors ++ [(r.Addr, "diffs do not match")] }
    | none => applyDiff st r r.Diff

/-- A run processes the resources in the order it receives them (spec §1:
the order is supplied externally). -/
def applyAll (st : EngineState) (steps : List ResourceStep) : EngineState :=
  steps.foldl applyResource st

/-- Modelled from the spec: exit signalling (`command/apply.go` is missing).
Spec §6/§7: a run with a collected error is "failed"; spec §5: a halted run is
"a non-error, clean termination". The tests read failure as exit code 1 and
the other outcomes as 0. -/
def exitCode (st : EngineState) : Nat :=
  if st.errors.isEmpty then 0 else 1

/-- The last provider apply call recorded for an address. -/
def lastCall (calls : List ApplyCall) (addr : String) : Option ApplyCall :=
  calls.reverse.find? (fun c => c.Addr == addr)

/-- The state records what a provider apply call returned: the resource has
an entry and, for a cycle on the primary instance, the primary state is what
the call returned; for a cycle on a parked instance, what the call returned,
unless nil, is among the deposed instances. -/
def State.records (s : State) (c : ApplyCall) : Prop :=
  ∃ rs, GoMap.lookup s.RootModule.Resources c.Addr = some rs ∧
    match c.Target with
    | CallTarget.primary => rs.Primary = c.State
    | CallTarget.deposed => ∀ x, c.State = some x → x ∈ rs.Deposed

/-- Invariant of a run: the state records what the last provider apply call
for each address returned; and a recorded call that returned an error has
left an error collected. -/
def EngineInv (st : EngineState) : Prop :=
  (∀ addr c, lastCall st.applyCalls addr = some c → st.state.records c)
    ∧ (∀ c ∈ st.applyCalls, c.Error ≠ none → st.errors ≠ [])

/-! ### State persistence -/

/-- File system: the contents of the file at each path, if there is one. -/
abbrev FileSystem (B : Type) := String → Option B

/-- Whole-file replacement of the file at `path`. -/
def FileSystem.write {B : Type} (fs : FileSystem B) (path : String) (c : B) :
    FileSystem B :=
  fun q => if q = path then some c else fs q

/-- Modelled from the spec: which backup path a run uses (`command/apply.go`
is missing). Spec §6: "default derived by appending a fixed suffix to the
primary path) unless explicitly disabled via a sentinel value"; the tests pass
the sentinel as `-backup -` and name the suffix `DefaultBackupExtention`, whose
value is a parameter here. `none` means no backup. -/
def backupPathOf (statePath : String) (backupArg : Option String) (ext : String) :
    Option String :=
  match backupArg with
  | none => some (statePath ++ ext)
  | some b => if b = "-" then none else some b

/-- Modelled from the spec: state persistence (`command/apply.go` is
missing). Spec §4.5: "If a file already exists at the target path, copy its
exact current bytes to the backup path first, unless backup is explicitly
disabled", then "overwrite the target path with the serialized new State". -/
def persistState {B : Type} (fs : FileSystem B) (target : String)
    (backup : Option String) (newContents : B) : FileSystem B :=
  let fs1 : FileSystem B :=
    match fs target, backup with
    | some cur, some b => FileSystem.write fs b cur
    | _, _ => fs
  FileSystem.write fs1 target newContents

/-- Modelled from the spec: the state a run starts from (`command/apply.go`
is missing). Spec §3: "created empty or loaded from disk at the start of a
run". -/
def loadState (fs : FileSystem Bytes) (statePath : String) : Option State :=
  match fs statePath with
  | none => some State.empty
  | some c => ReadState c

/-- Modelled from the spec: an apply run end to end (`command/apply.go` is
missing): load the state, process the resources, persist the result (also
after a halt or a provider error, spec §4.5/§7) with its serial, and report
the exit code. A state file that cannot be read fails the run before anything
is written. -/
def ApplyCommand.Run (ext : String) (fs : FileSystem Bytes) (statePath : String)
    (backupArg : Option String) (steps : List ResourceStep) :
    FileSystem Bytes × Nat :=
  match loadState fs statePath with
  | none => (fs, 1)
  | some s0 =>
    let final := applyAll (EngineState.init s0) steps
    (persistState fs statePath (backupPathOf statePath backupArg ext)
        (WriteState (State.nextSerial s0 final.state)), exitCode final)

/-! ## Test data of diff_test.go -/

/-- A `ResourceAttrDiff` literal with the fields the tests set; Go leaves the
others at their zero value. -/
def attrDiff (old new : String) (newComputed requiresNew : Bool) : ResourceAttrDiff :=
  { Old := old, New := new, NewComputed := newComputed, RequiresNew := requiresNew,
    NewRemoved := false }

/-- The Diff of `TestReadWriteDiff` and `TestDiff_String`. -/
def testDiff : Diff :=
  { Resources := [("nodeA", some
      { Attributes := [("foo", attrDiff "foo" "bar" false false),
                       ("bar", attrDiff "foo" "" true false),
                       ("longfoo", attrDiff "foo" "bar" false true)],
        Destroy := false })] }

/-- The cases of `TestResourceDiffSame`: the two diffs and the expected
result, in the order of the test table. -/
def sameCases : List (Option InstanceDiff × Option InstanceDiff × Bool) :=
  [ (some { Attributes := [], Destroy := false },
     some { Attributes := [], Destroy := false }, true),
    (none, none, true),
    (some { Attributes := [], Destroy := false },
     some { Attributes := [], Destroy := true }, false),
    (some { Attributes := [], Destroy := true },
     some { Attributes := [], Destroy := true }, true),
    (some { Attributes := [("foo", attrDiff "" "" false false)], Destroy := false },
     some { Attributes := [("foo", attrDiff "" "" false false)], Destroy := false }, true),
    (some { Attributes := [("bar", attrDiff "" "" false false)], Destroy := false },
     some { Attributes := [("foo", attrDiff "" "" false false)], Destroy := false }, false),
    (some { Attributes := [("foo", attrDiff "" "" false true)], Destroy := false },
     some { Attributes := [("foo", attrDiff "" "" false false)], Destroy := false }, false) ]

/-! ## Scenarios of apply_test.go -/

/-- The diff the test providers return: attribute `ami` gets the new value
`bar` (`TestApply_error`, `TestApply_state`, `TestApply_backup`). -/
def amiDiff : InstanceDiff :=
  { Attributes := [("ami", { Old := "", New := "bar", NewComputed := false,
                             RequiresNew := false, NewRemoved := false })],
    Destroy := false }

/-- Step of `TestApply_error`: no hooks halt, and the provider's apply call
returns `nil, fmt.Errorf("error")`. -/
def applyErrorStep : ResourceStep :=
  { Addr := "test_instance.foo", Typ := "test_instance", PreDiff := [],
    Diff := some amiDiff, Plan := none, PostDiff := [], CreateBeforeDestroy := false,
    PreApply := [], ApplyState := none, ApplyError := some "error", PostApply := [],
    PreDestroy := [], DestroyState := none, DestroyError := none, PostDestroy := [] }

/-- `originalState` of `TestApply_state` and `TestApply_backup`: one resource
`test_instance.foo` with primary ID `bar` in the root module; here with
connection info in its ephemeral payload. -/
def originalState : State :=
  { Version := 1, Serial := 3,
    Modules := [{ Path := ["root"],
                  Resources := [("test_instance.foo",
                    { Typ := "test_instance", Dependencies := [],
                      Primary := some { ID := "bar", Attributes := [],
                                        Ephemeral := { ConnInfo := [("host", "h")] } },
                      Deposed := [], Provider := "" })] }] }

/-- Step of `TestApply_state`: the diff changes `ami` and the provider's apply
call succeeds with the attribute set. -/
def applyStateStep : ResourceStep :=
  { Addr := "test_instance.foo", Typ := "test_instance", PreDiff := [],
    Diff := some amiDiff, Plan := none, PostDiff := [], CreateBeforeDestroy := false,
    PreApply := [],
    ApplyState := some { ID := "bar", Attributes := [("ami", "bar")],
                         Ephemeral := { ConnInfo := [] } },
    ApplyError := none, PostApply := [],
    PreDestroy := [], DestroyState := none, DestroyError := none, PostDestroy := [] }

/-- A diff that forces a new resource: attribute `ami` changes with
`RequiresNew`. -/
def replaceDiff : InstanceDiff :=
  { Attributes := [("ami", { Old := "foo", New := "bar", NewComputed := false,
                             RequiresNew := true, NewRemoved := false })],
    Destroy := false }

/-- A create-before-destroy replacement of `test_instance.foo`: the create
cycle succeeds with a new instance `baz`; the cycle that destroys the old
instance fails and returns the old instance. -/
def replaceErrorStep : ResourceStep :=
  { Addr := "test_instance.foo", Typ := "test_instance", PreDiff := [],
    Diff := some replaceDiff, Plan := none, PostDiff := [], CreateBeforeDestroy := true,
    PreApply := [],
    ApplyState := some { ID := "baz", Attributes := [("ami", "bar")],
                         Ephemeral := { ConnInfo := [] } },
    ApplyError := none, PostApply := [],
    PreDestroy := [],
    DestroyState := some { ID := "bar", Attributes := [],
                           Ephemeral := { ConnInfo := [] } },
    DestroyError := some "destroy failed", PostDestroy := [] }

/-- A file system holding the written `originalState` at `terraform.tfstate`
and nothing else. -/
def originalFiles : FileSystem Bytes :=
  FileSystem.write (fun _ => none) "terraform.tfstate" (WriteState originalState)

/-! ## sort.Strings -/

/-- Lexicographic `a ≤ b` on character sequences. Go compares strings
bytewise, which on UTF-8 text is the order of the code points. -/
def lexLE : List Char → List Char → Bool
  | [], _ => true
  | _ :: _, [] => false
  | a :: as, b :: bs =>
    if a.toNat < b.toNat then true
    else if b.toNat < a.toNat then false
    else lexLE as bs

/-- The order `sort.Strings` sorts by. -/
def strLE (a b : String) : Prop := lexLE a.data b.data = true

instance strLE.decidable : DecidableRel strLE :=
  fun a b => inferInstanceAs (Decidable (lexLE a.data b.data = true))

/-- `sort.Strings(s)`: the strings in increasing order. -/
def sortStrings (l : List String) : List String := l.insertionSort strLE

/-! ## Text rendering of a Diff (terraform/diff.go is not among the sources) -/

/-- Modelled from the spec: how a string value is shown (`terraform/diff.go`
is missing). `diffStrBasic` in `diff_test.go` shows values between double
quotes. -/
def quoteString (v : String) : String := "\"" ++ v ++ "\""

/-- Modelled from the spec: the new value shown for an attribute
(`terraform/diff.go` is missing). Spec §4.1: "render `newComputed`
attributes' new value as a fixed "<computed>" sentinel instead of the literal
(possibly empty) string". -/
def attrNewValue (a : ResourceAttrDiff) : String :=
  if a.NewComputed then "<computed>" else a.New

/-- Modelled from the spec: the annotation closing an attribute line
(`terraform/diff.go` is missing). Spec §4.1: "suffix `requiresNew` attributes
with a "(forces new resource)" annotation". -/
def attrSuffix (a : ResourceAttrDiff) : String :=
  if a.RequiresNew then " (forces new resource)" else ""

/-- The part of an attribute line before the new value, laid out as in
`diffStrBasic`: two blanks, the name and a colon, blanks up to the longest
name, the old value and the arrow. -/
def attrLead (keyLen : Nat) (k : String) (old : String) : String :=
  "  " ++ k ++ ":" ++ String.mk (List.replicate (keyLen - k.length) ' ') ++ " "
    ++ quoteString old ++ " => "

/-- Modelled from the spec: one attribute line (`terraform/diff.go` is
missing), laid out as in `diffStrBasic`: the lead, the new value, the
annotation, a line break. -/
def attrLine (keyLen : Nat) (k : String) (a : ResourceAttrDiff) : String :=
  attrLead keyLen k a.Old ++ quoteString (attrNewValue a) ++ attrSuffix a ++ "\n"

/-- Modelled from the spec: the label opening a resource (`terraform/diff.go`
is missing). Spec §4.1: "mark `destroy` as a leading "DESTROY:" or
"CREATE:"/"UPDATE:" label"; `diffStrBasic` shows `CREATE` for a resource with
an attribute that forces a new resource. -/
def crudLabel (r : InstanceDiff) : String :=
  if r.Destroy then "DESTROY"
  else if InstanceDiff.RequiresNew (some r) then "CREATE"
  else "UPDATE"

/-- The attribute names of a resource in the order they are shown. Spec §4.1:
"within a resource, sort attribute names, lexicographically". -/
def InstanceDiff.attrNames (r : InstanceDiff) : List String :=
  sortStrings (GoMap.keys r.Attributes)

/-- Length of the longest attribute name shown. -/
def InstanceDiff.keyLen (r : InstanceDiff) : Nat :=
  r.attrNames.foldl (fun n k => max n k.length) 0

/-- Modelled from the spec: the lines shown for one resource
(`terraform/diff.go` is missing): the label line, then one line per attribute
name in sorted order, each attribute being looked up in the map. -/
def resourceLines (name : String) (r : InstanceDiff) : List String :=
  (crudLabel r ++ ": " ++ name ++ "\n") ::
    r.attrNames.filterMap
      (fun k => (GoMap.lookup r.Attributes k).map (attrLine r.keyLen k))

/-- The resource addresses of a Diff in the order they are shown. Spec §4.1:
"sort resource addresses ... lexicographically". -/
def Diff.names (d : Diff) : List String :=
  sortStrings (GoMap.keys d.Resources)

/-- The lines shown for the resource stored under an address; a nil
InstanceDiff is shown as the zero value "no change" (spec §3). -/
def Diff.block (d : Diff) (name : String) : List String :=
  match GoMap.lookup d.Resources name with
  | some r => resourceLines name (r.getD InstanceDiff.zero)
  | none => []

/-- The lines of `String()`: the resources in sorted order of address. -/
def Diff.lines (d : Diff) : List String :=
  d.names.flatMap d.block

/-- Modelled from the spec: `(*Diff).String` (`terraform/diff.go` is
missing). Spec §3/§4.1: resources in lexicographic order of address and,
within a resource, attributes in lexicographic order of name. -/
def Diff.String (d : Diff) : String :=
  String.join d.lines

/-- `diffStrBasic` of `diff_test.go`, without the leading line break that
`strings.TrimSpace` removes. -/
def diffStrBasic : String :=
  "CREATE: nodeA\n  bar:     \"foo\" => \"<computed>\"\n  foo:     \"foo\" => \"bar\"\n  longfoo: \"foo\" => \"bar\" (forces new resource)\n"

/-- Two maps hold the same contents: no key twice in either, the same keys,
and under each key values that `eqv` accepts. -/
def GoMap.sameContents {V : Type} (eqv : V → V → Bool) (m1 m2 : GoMap V) : Bool :=
  decide (GoMap.keys m1).Nodup && decide (GoMap.keys m2).Nodup
    && (GoMap.keys m1).all (fun k =>
          match GoMap.lookup m1 k, GoMap.lookup m2 k with
          | some a, some b => eqv a b
          | _, _ => false)
    && (GoMap.keys m2).all (fun k => (GoMap.keys m1).contains k)

/-- Two InstanceDiffs hold the same contents: the same destroy flag and
attribute maps with the same contents. -/
def InstanceDiff.sameContents (a b : InstanceDiff) : Bool :=
  a.Destroy == b.Destroy && GoMap.sameContents (fun x y => x == y) a.Attributes b.Attributes

/-- Two `*InstanceDiff` hold the same contents. -/
def InstanceDiff.sameContentsPtr : Option InstanceDiff → Option InstanceDiff → Bool
  | none, none => true
  | some a, some b => InstanceDiff.sameContents a b
  | _, _ => false

/-- Two Diffs hold the same contents, whatever the order of their entries. -/
def Diff.sameContents (d1 d2 : Diff) : Bool :=
  GoMap.sameContents InstanceDiff.sameContentsPtr d1.Resources d2.Resources

/-- A Diff with two resources, stored with the later address first. -/
def twoResourceDiff : Diff :=
  { Resources := [("nodeB", some { Attributes := [("b", attrDiff "1" "2" false false),
                                                  ("a", attrDiff "3" "4" false false)],
                                   Destroy := false }),
                  ("nodeA", some { Attributes := [], Destroy := true })] }

/-- The Diff of `TestDiff_String` with its resource attributes in another
iteration order. -/
def testDiffReordered : Diff :=
  { Resources := [("nodeA", some
      { Attributes := [("longfoo", attrDiff "foo" "bar" false true),
                       ("foo", attrDiff "foo" "bar" false false),
                       ("bar", attrDiff "foo" "" true false)],
        Destroy := false })] }

end terraform

/-! ## builtin/providers/google/resource_compute_firewall.go

The client library, `helper/schema` and `helper/hashcode` are not among the
sources. What the remote calls return is an input (`Client`);
`hashcode.String` is a parameter; a `*schema.Set` is the list of its elements
in the order `List()` returns them. -/

namespace google

open terraform

/-- An error value returned by the client library: a `*googleapi.Error` with
its `Code`, or any other error; `text` is what `Error()` returns. -/
inductive ClientError where
  | googleapi (Code : Int) (text : String)
  | other (text : String)
  deriving DecidableEq, Repr

/-- `err.Error()`. -/
def ClientError.Error : ClientError → String
  | ClientError.googleapi _ text => text
  | ClientError.other text => text

/-- `compute.FirewallAllowed`. -/
structure FirewallAllowed where
  IPProtocol : String
  Ports : List String
  deriving DecidableEq, Repr

/-- `compute.Firewall`, the fields `resourceFirewall` sets. -/
structure Firewall where
  Name : String
  Network : String
  Allowed : List FirewallAllowed
  SourceRanges : List String
  SourceTags : List String
  deriving DecidableEq, Repr

/-- `compute.Operation`: `Error` is `op.Error`, nil or the text of the
operation error. -/
structure Operation where
  Name : String
  Error : Option String
  deriving DecidableEq, Repr

/-- What the remote calls of `config.clientCompute` and the operation waiter
return: `Networks.Get(project, name).Do()` gives the network's `SelfLink` or
an error, `Firewalls.Insert(project, firewall).Do()` an operation or an error,
`Firewalls.Get(project, name).Do()` an error or nil, and `WaitForState()` for
an operation the finished operation or an error text. -/
structure Client where
  NetworksGet : String → String → Except ClientError String
  FirewallsInsert : String → Firewall → Except ClientError Operation
  FirewallsGet : String → String → Option ClientError
  WaitForState : Operation → Except String Operation

/-- `Config`: the project and the compute client. -/
structure Config where
  Project : String
  clientCompute : Client

/-- An element of the `allow` set as the hash function receives it: the
`protocol` string and, when the map has a `ports` key, the elements of that
set. -/
structure AllowEntry where
  protocol : String
  ports : Option (List String)
  deriving DecidableEq, Repr

/-- `schema.ResourceData`: the ID and the fields of the firewall schema as
`d.Get` returns them (each `allow` element with its protocol and its `ports`
set, which `d.Get` always materialises). -/
structure ResourceData where
  id : String
  name : String
  network : String
  allow : List (String × List String)
  source_ranges : List String
  source_tags : List String
  deriving DecidableEq, Repr

/-- `d.SetId(v)`. -/
def ResourceData.SetId (d : ResourceData) (v : String) : ResourceData :=
  { d with id := v }

/-- The string `resourceComputeFirewallAllowHash` builds in `buf`: the
protocol and each port, in sorted order, each followed by `-`. -/
def allowHashKey (m : AllowEntry) : String :=
  let buf := "" ++ (m.protocol ++ "-")
  match m.ports with
  | some vs => (sortStrings vs).foldl (fun buf v => buf ++ (v ++ "-")) buf
  | none => buf

/-- `resourceComputeFirewallAllowHash(v)`: `hashcode.String(buf.String())`. -/
def resourceComputeFirewallAllowHash (hashcodeString : String → Int) (m : AllowEntry) :
    Int :=
  hashcodeString (allowHashKey m)

/-- `resourceComputeFirewallRead(d, meta)`: the updated `d` and the returned
error. -/
def resourceComputeFirewallRead (config : Config) (d : ResourceData) :
    ResourceData × GoError :=
  match config.clientCompute.FirewallsGet config.Project d.id with
  | some err =>
    match err with
    | ClientError.googleapi code _ =>
      if code = 404 then (d.SetId "", none)
      else (d, some ("Error reading firewall: " ++ err.Error))
    | ClientError.other _ => (d, some ("Error reading firewall: " ++ err.Error))
  | none => (d, none)

/-- `resourceFirewall(d, meta)`: `Except.error msg` is the return `nil, err`;
`Except.ok fw` is the return `fw, nil`. An empty set leaves the slice nil,
which is the empty list. -/
def resourceFirewall (config : Config) (d : ResourceData) : Except String Firewall :=
  match config.clientCompute.NetworksGet config.Project d.network with
  | Except.error err => Except.error ("Error reading network: " ++ err.Error)
  | Except.ok selfLink =>
    Except.ok
      { Name := d.name
        Network := selfLink
        Allowed := d.allow.map (fun m => { IPProtocol := m.1, Ports := m.2 })
        SourceRanges := d.source_ranges
        SourceTags := d.source_tags }

/-- `resourceComputeFirewallCreate(d, meta)`: the updated `d` and the returned
error. -/
def resourceComputeFirewallCreate (config : Config) (d : ResourceData) :
    ResourceData × GoError :=
  match resourceFirewall config d with
  | Except.error err => (d, some err)
  | Except.ok firewall =>
    match config.clientCompute.FirewallsInsert config.Project firewall with
    | Except.error err => (d, some ("Error creating firewall: " ++ err.Error))
    | Except.ok op =>
      let d := d.SetId firewall.Name
      match config.clientCompute.WaitForState op with
      | Except.error err => (d, some ("Error waiting for firewall to create: " ++ err))
      | Except.ok op =>
        match op.Error with
        | some e => (d.SetId "", some e)
        | none => resourceComputeFirewallRead config d

end google

namespace terraform

/-! ## Theorems: hook protocol and cancellation hook -/

/-- The shared body of the ten callbacks, in closed form. -/
theorem stopHook.hook_eq (h : stopHook) :
    h.hook = (if h.Stopped = true then HookActionHalt else HookActionContinue, none) := by
  unfold stopHook.hook
  split <;> rfl

/-- The two enumerated actions are different bytes. -/
theorem HookActionHalt_ne_Continue : HookActionHalt ≠ HookActionContinue := by
  decide

/-- C5: each of the ten stopHook callbacks returns `HookActionHalt` iff the
flag is set (`Stopped()` is true) and `HookActionContinue` otherwise, always
with a nil error, whatever the arguments are. -/
theorem stopHook_callbacks_spec (h : stopHook) (n p : String)
    (s : Option InstanceState) (d : Option InstanceDiff) (e : GoError) :
    h.PreApply n s d
        = (if h.Stopped = true then HookActionHalt else HookActionContinue, none)
      ∧ h.PostApply n s e
        = (if h.Stopped = true then HookActionHalt else HookActionContinue, none)
      ∧ h.PreDiff n s
        = (if h.Stopped = true then HookActionHalt else HookActionContinue, none)
      ∧ h.PostDiff n d
        = (if h.Stopped = true then HookActionHalt else HookActionContinue, none)
      ∧ h.PreProvisionResource n s
        = (if h.Stopped = true then HookActionHalt else HookActionContinue, none)
      ∧ h.PostProvisionResource n s
        = (if h.Stopped = true then HookActionHalt else HookActionContinue, none)
      ∧ h.PreProvision n p
        = (if h.Stopped = true then HookActionHalt else HookActionContinue, none)
      ∧ h.PostProvision n p
        = (if h.Stopped = true then HookActionHalt else HookActionContinue, none)
      ∧ h.PreRefresh n s
        = (if h.Stopped = true then HookActionHalt else HookActionContinue, none)
      ∧ h.PostRefresh n s
        = (if h.Stopped = true then HookActionHalt else HookActionContinue, none)
      ∧ ((h.hook).1 = HookActionHalt ↔ h.Stopped = true)
      ∧ ((h.hook).1 = HookActionContinue ↔ h.Stopped = false)
      ∧ (h.hook).2 = none := by
  have hne := HookActionHalt_ne_Continue
  refine ⟨h.hook_eq, h.hook_eq, h.hook_eq, h.hook_eq, h.hook_eq, h.hook_eq, h.hook_eq,
    h.hook_eq, h.hook_eq, h.hook_eq, ?_, ?_, ?_⟩
  · rw [h.hook_eq]
    cases h.Stopped <;> simp [hne.symm]
  · rw [h.hook_eq]
    cases h.Stopped <;> simp [hne]
  · rw [h.hook_eq]

/-- C6: after `Stop()` the hook is stopped and after `Reset()` it is not,
whatever the flag held before; so `Stop` then `Reset` leaves it not stopped
and `Reset` then `Stop` leaves it stopped. -/
theorem stopHook_Stop_Reset_spec (h : stopHook) :
    h.Stop.Stopped = true
      ∧ h.Reset.Stopped = false
      ∧ h.Stop.Reset.Stopped = false
      ∧ h.Reset.Stop.Stopped = true := by
  exact ⟨rfl, rfl, rfl, rfl⟩

/-- C7: `handleHook(a, err)` panics iff `a` is `HookActionHalt`, the panic
value then being `HookActionHalt`; it returns normally for
`HookActionContinue`; and the outcome is the same for every `err`, nil or
not, so an error alone never aborts. -/
theorem handleHook_spec (a : HookAction) (err : GoError) :
    ((∃ v, handleHook a err = Except.error v) ↔ a = HookActionHalt)
      ∧ (handleHook a err = Except.error HookActionHalt ↔ a = HookActionHalt)
      ∧ handleHook HookActionContinue err = Except.ok ()
      ∧ handleHook a err = handleHook a none := by
  have hne := HookActionHalt_ne_Continue
  unfold handleHook
  refine ⟨?_, ?_, ?_, rfl⟩
  · by_cases h0 : a = HookActionContinue
    · subst h0
      simp [hne.symm]
    · by_cases h1 : a = HookActionHalt
      · subst h1
        simp [hne]
      · simp [h0, h1]
  · by_cases h0 : a = HookActionContinue
    · subst h0
      simp [hne.symm]
    · by_cases h1 : a = HookActionHalt
      · subst h1
        simp [hne]
      · simp [h0, h1]
  · simp

/-! ## Theorems: diff model queries -/

/-- A stored key is found by lookup. -/
theorem GoMap.lookup_isSome_of_mem_keys {V : Type} (m : GoMap V) (k : String)
    (hk : k ∈ GoMap.keys m) : ∃ v, GoMap.lookup m k = some v := by
  induction m with
  | nil => simp [GoMap.keys] at hk
  | cons kv tl ih =>
    by_cases h : kv.1 = k
    · exact ⟨kv.2, by simp [GoMap.lookup, List.find?, h]⟩
    · have hk2 : k ∈ GoMap.keys tl := by
        simp only [GoMap.keys, List.map_cons, List.mem_cons] at hk
        rcases hk with hk | hk
        · exact absurd hk.symm h
        · exact hk
      obtain ⟨v, hv⟩ := ih hk2
      refine ⟨v, ?_⟩
      have hb : (kv.1 == k) = false := by simpa using h
      simpa [GoMap.lookup, List.find?, hb] using hv

/-- Lookup only finds stored keys. -/
theorem GoMap.mem_keys_of_lookup {V : Type} (m : GoMap V) (k : String) (v : V)
    (hv : GoMap.lookup m k = some v) : k ∈ GoMap.keys m := by
  induction m with
  | nil => simp [GoMap.lookup] at hv
  | cons kv tl ih =>
    by_cases h : kv.1 = k
    · simp [GoMap.keys, h]
    · have hb : (kv.1 == k) = false := by simpa using h
      have hv2 : GoMap.lookup tl k = some v := by
        simpa [GoMap.lookup, List.find?, hb] using hv
      have := ih hv2
      simp only [GoMap.keys, List.map_cons, List.mem_cons]
      exact Or.inr this

/-- The Boolean comparison of two non-nil diffs, read as a proposition. -/
theorem InstanceDiff.sameStructure_iff (a b : InstanceDiff) :
    InstanceDiff.sameStructure a b = true ↔
      a.Destroy = b.Destroy
        ∧ (∀ k, k ∈ GoMap.keys a.Attributes ↔ k ∈ GoMap.keys b.Attributes)
        ∧ (∀ k x y, GoMap.lookup a.Attributes k = some x →
              GoMap.lookup b.Attributes k = some y → x.RequiresNew = y.RequiresNew) := by
  unfold InstanceDiff.sameStructure
  simp only [Bool.and_eq_true, beq_iff_eq, List.all_eq_true, List.contains_eq_any_beq, List.any_eq_true, exists_eq_right',
    List.elem_eq_mem, decide_eq_true_eq]
  constructor
  · rintro ⟨⟨⟨hd, hab⟩, hba⟩, hrn⟩
    refine ⟨hd, fun k => ⟨hab k, hba k⟩, ?_⟩
    intro k x y hx hy
    have hk := GoMap.mem_keys_of_lookup _ _ _ hx
    have := hrn k hk
    rw [hx, hy] at this
    simpa using this
  · rintro ⟨hd, hkeys, hrn⟩
    refine ⟨⟨⟨hd, fun k hk => (hkeys k).1 hk⟩, fun k hk => (hkeys k).2 hk⟩, ?_⟩
    intro k hk
    obtain ⟨x, hx⟩ := GoMap.lookup_isSome_of_mem_keys _ _ hk
    obtain ⟨y, hy⟩ := GoMap.lookup_isSome_of_mem_keys _ _ ((hkeys k).1 hk)
    rw [hx, hy]
    simp [hrn k x y hx hy]

/-- C2: `a.Same(b)` on two non-nil diffs is true iff they have the same
destroy flag, the same set of attribute keys and, for each key, the same
requiresNew flag (old and new values play no part); two nil diffs are the
same; and two diffs in which a shared key has requiresNew set on one side only
are not the same. -/
theorem InstanceDiff_Same_spec :
    (∀ a b : InstanceDiff, InstanceDiff.Same (some a) (some b) = true ↔
        a.Destroy = b.Destroy
          ∧ (∀ k, k ∈ GoMap.keys a.Attributes ↔ k ∈ GoMap.keys b.Attributes)
          ∧ (∀ k x y, GoMap.lookup a.Attributes k = some x →
                GoMap.lookup b.Attributes k = some y → x.RequiresNew = y.RequiresNew))
      ∧ InstanceDiff.Same none none = true
      ∧ (∀ (a b : InstanceDiff) (k : String) (x y : ResourceAttrDiff),
            GoMap.lookup a.Attributes k = some x → GoMap.lookup b.Attributes k = some y →
            x.RequiresNew ≠ y.RequiresNew → InstanceDiff.Same (some a) (some b) = false) := by
  refine ⟨fun a b => ?_, by decide, ?_⟩
  · simpa [InstanceDiff.Same] using InstanceDiff.sameStructure_iff a b
  · intro a b k x y hx hy hne
    have h := InstanceDiff.sameStructure_iff a b
    cases hs : InstanceDiff.sameStructure a b with
    | false => simpa [InstanceDiff.Same] using hs
    | true => exact absurd ((h.1 hs).2.2 k x y hx hy) hne

/-- C3: `Empty()` is true for a nil receiver and for a zero-value receiver;
for a non-nil receiver it is true iff destroy is false and no attribute has
old different from new or newComputed set; it is false whenever destroy is
true or some attribute has such a change. -/
theorem InstanceDiff_Empty_spec :
    InstanceDiff.Empty none = true
      ∧ InstanceDiff.Empty (some { Attributes := [], Destroy := false }) = true
      ∧ (∀ d : InstanceDiff, InstanceDiff.Empty (some d) = true ↔
            d.Destroy = false
              ∧ ¬ ∃ kv ∈ d.Attributes, kv.2.Old ≠ kv.2.New ∨ kv.2.NewComputed = true)
      ∧ (∀ d : InstanceDiff,
            (d.Destroy = true
              ∨ ∃ kv ∈ d.Attributes, kv.2.Old ≠ kv.2.New ∨ kv.2.NewComputed = true) →
            InstanceDiff.Empty (some d) = false) := by
  have key : ∀ d : InstanceDiff, InstanceDiff.Empty (some d) = true ↔
      d.Destroy = false
        ∧ ¬ ∃ kv ∈ d.Attributes, kv.2.Old ≠ kv.2.New ∨ kv.2.NewComputed = true := by
    intro d
    simp only [InstanceDiff.Empty, ResourceAttrDiff.noChange, Bool.and_eq_true,
      Bool.not_eq_true', List.all_eq_true, beq_iff_eq]
    constructor
    · rintro ⟨hd, hall⟩
      refine ⟨hd, ?_⟩
      rintro ⟨kv, hkv, hch⟩
      have := hall kv hkv
      rcases hch with hch | hch
      · exact hch this.1
      · rw [this.2] at hch
        exact Bool.noConfusion hch
    · rintro ⟨hd, hno⟩
      refine ⟨hd, fun kv hkv => ?_⟩
      constructor
      · by_contra hne
        exact hno ⟨kv, hkv, Or.inl hne⟩
      · cases hc : kv.2.NewComputed with
        | false => rfl
        | true => exact absurd ⟨kv, hkv, Or.inr hc⟩ hno
  refine ⟨rfl, rfl, key, ?_⟩
  intro d h
  cases he : InstanceDiff.Empty (some d) with
  | false => rfl
  | true =>
    have := (key d).1 he
    rcases h with h | h
    · rw [this.1] at h
      exact Bool.noConfusion h
    · exact absurd h this.2

/-- C4: `RequiresNew()` is false for a nil receiver; for a non-nil receiver
it is true iff at least one attribute has requiresNew set, hence false for an
empty attribute map and when every attribute has requiresNew false. -/
theorem InstanceDiff_RequiresNew_spec :
    InstanceDiff.RequiresNew none = false
      ∧ (∀ d : InstanceDiff, InstanceDiff.RequiresNew (some d) = true ↔
            ∃ kv ∈ d.Attributes, kv.2.RequiresNew = true)
      ∧ (∀ destroy : Bool,
            InstanceDiff.RequiresNew (some { Attributes := [], Destroy := destroy }) = false)
      ∧ (∀ d : InstanceDiff, (∀ kv ∈ d.Attributes, kv.2.RequiresNew = false) →
            InstanceDiff.RequiresNew (some d) = false) := by
  refine ⟨rfl, fun d => ?_, fun _ => rfl, fun d h => ?_⟩
  · simp [InstanceDiff.RequiresNew]
  · simp only [InstanceDiff.RequiresNew, List.any_eq_false]
    intro kv hkv
    simp [h kv hkv]

/-- C10: `d.Empty()` holds iff every contained InstanceDiff is empty; it
holds for a Diff with no resources and for one whose resources are all
zero-value InstanceDiffs, and fails as soon as one resource has destroy set or
an attribute with old different from new or newComputed set. -/
theorem Diff_Empty_spec :
    (∀ d : Diff, Diff.Empty d = true ↔
        ∀ kv ∈ d.Resources, InstanceDiff.Empty kv.2 = true)
      ∧ Diff.Empty { Resources := [] } = true
      ∧ (∀ d : Diff,
            (∀ kv ∈ d.Resources, kv.2 = some { Attributes := [], Destroy := false }) →
            Diff.Empty d = true)
      ∧ (∀ (d : Diff) (n : String) (r : InstanceDiff), (n, some r) ∈ d.Resources →
            (r.Destroy = true
              ∨ ∃ kv ∈ r.Attributes, kv.2.Old ≠ kv.2.New ∨ kv.2.NewComputed = true) →
            Diff.Empty d = false) := by
  have key : ∀ d : Diff, Diff.Empty d = true ↔
      ∀ kv ∈ d.Resources, InstanceDiff.Empty kv.2 = true := by
    intro d
    simp [Diff.Empty]
  refine ⟨key, rfl, fun d h => ?_, fun d n r hmem hch => ?_⟩
  · rw [key]
    intro kv hkv
    rw [h kv hkv]
    rfl
  · cases he : Diff.Empty d with
    | false => rfl
    | true =>
      have h1 := (key d).1 he (n, some r) hmem
      have h2 : InstanceDiff.Empty (some r) = false := by
        cases hr : InstanceDiff.Empty (some r) with
        | false => rfl
        | true =>
          simp only [InstanceDiff.Empty, ResourceAttrDiff.noChange, Bool.and_eq_true,
            Bool.not_eq_true', List.all_eq_true, beq_iff_eq] at hr
          rcases hch with hch | ⟨kv, hkv, hch⟩
          · rw [hr.1] at hch
            exact Bool.noConfusion hch
          · have := hr.2 kv hkv
            rcases hch with hch | hch
            · exact absurd this.1 hch
            · rw [this.2] at hch
              exact Bool.noConfusion hch
      rw [h2] at h1
      exact Bool.noConfusion h1

/-- The model of `Same` gives every result `TestResourceDiffSame` expects. -/
theorem TestResourceDiffSame_holds :
    sameCases.all (fun tc => InstanceDiff.Same tc.1 tc.2.1 == tc.2.2) = true := by
  decide

/-- The model of `InstanceDiff.Empty` gives every result
`TestResourceDiff_Empty` expects. -/
theorem TestResourceDiff_Empty_holds :
    InstanceDiff.Empty none = true
      ∧ InstanceDiff.Empty (some { Attributes := [], Destroy := false }) = true
      ∧ InstanceDiff.Empty (some { Attributes := [], Destroy := true }) = false
      ∧ InstanceDiff.Empty
          (some { Attributes := [("foo", attrDiff "" "bar" false false)],
                  Destroy := false }) = false := by
  decide

/-- The model of `RequiresNew` gives every result
`TestResourceDiff_RequiresNew` and `TestResourceDiff_RequiresNew_nil` expect. -/
theorem TestResourceDiff_RequiresNew_holds :
    InstanceDiff.RequiresNew
        (some { Attributes := [("foo", attrDiff "" "" false false)],
                Destroy := false }) = false
      ∧ InstanceDiff.RequiresNew
          (some { Attributes := [("foo", attrDiff "" "" false true)],
                  Destroy := false }) = true
      ∧ InstanceDiff.RequiresNew none = false := by
  decide

/-- The model of `Diff.Empty` gives every result `TestDiff_Empty` expects. -/
theorem TestDiff_Empty_holds :
    Diff.Empty { Resources := [] } = true
      ∧ Diff.Empty { Resources := [("nodeA", some { Attributes := [], Destroy := false })] }
          = true
      ∧ Diff.Empty
          { Resources := [("nodeA",
              some { Attributes := [("foo", attrDiff "foo" "bar" false false)],
                     Destroy := false })] } = false
      ∧ Diff.Empty { Resources := [("nodeA", some { Attributes := [], Destroy := true })] }
          = false := by
  decide

/-! ## Theorems: binary encoding of a Diff -/

/-- A flag byte reads back as the flag. -/
theorem decodeBool_encodeBool (b : Bool) (r : Bytes) :
    decodeBool (encodeBool b ++ r) = some (b, r) := by
  cases b <;> rfl

/-- Encoded characters read back, leaving what follows them. -/
theorem decodeChars_encodeChars (cs : List Char) (r : Bytes) :
    decodeChars (encodeChars cs ++ r) = some (cs, r) := by
  induction cs with
  | nil => rfl
  | cons c cs ih =>
    have hc : c.toNat / 65536 * 65536 + c.toNat / 256 % 256 * 256 + c.toNat % 256
        = c.toNat := by omega
    simp only [encodeChars, encodeChar, List.cons_append, List.nil_append,
      List.append_eq, List.append_assoc, decodeChars, ih, hc, Char.ofNat_toNat]

/-- An encoded string reads back, leaving what follows it. -/
theorem decodeString_encodeString (s : String) (r : Bytes) :
    decodeString (encodeString s ++ r) = some (s, r) := by
  simp only [decodeString, encodeString, decodeChars_encodeChars]

/-- An encoded attribute reads back, leaving what follows it. -/
theorem decodeAttr_encodeAttr (a : ResourceAttrDiff) (r : Bytes) :
    decodeAttr (encodeAttr a ++ r) = some (a, r) := by
  simp only [decodeAttr, encodeAttr, List.append_assoc, decodeString_encodeString,
    decodeBool_encodeBool]

/-- The encoding of a map is longer than its number of entries. -/
theorem length_lt_encodeEntries {V : Type} (enc : V → Bytes) (m : GoMap V) :
    m.length < (encodeEntries enc m).length := by
  induction m with
  | nil => simp [encodeEntries]
  | cons kv m ih =>
    simp only [encodeEntries, List.length_cons, List.length_append]
    omega

/-- The encoding of a map is longer than the encoding of each of its values. -/
theorem length_enc_lt_encodeEntries {V : Type} (enc : V → Bytes) (m : GoMap V)
    (kv : String × V) (h : kv ∈ m) :
    (enc kv.2).length < (encodeEntries enc m).length := by
  induction m with
  | nil => cases h
  | cons hd m ih =>
    simp only [encodeEntries, List.length_cons, List.length_append]
    rcases List.mem_cons.1 h with h | h
    · subst h
      omega
    · have := ih h
      omega

/-- Encoded map entries read back when the value decoder reads back every
value of the map and the fuel exceeds the number of entries. -/
theorem decodeEntries_encodeEntries {V : Type} (enc : V → Bytes)
    (dec : Bytes → Option (V × Bytes)) (m : GoMap V)
    (hdec : ∀ kv ∈ m, ∀ r, dec (enc kv.2 ++ r) = some (kv.2, r))
    (fuel : Nat) (hfuel : m.length < fuel) (r : Bytes) :
    decodeEntries dec fuel (encodeEntries enc m ++ r) = some (m, r) := by
  induction m generalizing fuel with
  | nil =>
    cases fuel with
    | zero => omega
    | succ f => rfl
  | cons kv m ih =>
    cases fuel with
    | zero => omega
    | succ f =>
      have h1 := hdec kv (List.mem_cons_self _ _)
      have h2 := ih (fun x hx => hdec x (List.mem_cons_of_mem _ hx)) f
        (by simpa using hfuel)
      simp only [encodeEntries, List.cons_append, List.append_eq, List.append_assoc,
        decodeEntries, decodeString_encodeString, h1, h2]

/-- An encoded InstanceDiff reads back when the fuel exceeds its number of
attributes. -/
theorem decodeInstanceDiff_encodeInstanceDiff (d : InstanceDiff) (fuel : Nat)
    (hfuel : d.Attributes.length < fuel) (r : Bytes) :
    decodeInstanceDiff fuel (encodeInstanceDiff d ++ r) = some (d, r) := by
  have h := decodeEntries_encodeEntries encodeAttr decodeAttr d.Attributes
    (fun kv _ r => decodeAttr_encodeAttr kv.2 r) fuel hfuel
  simp only [decodeInstanceDiff, encodeInstanceDiff, List.append_assoc, h,
    decodeBool_encodeBool]

/-- An encoded `*InstanceDiff` reads back when the fuel is at least the
length of its encoding. -/
theorem decodeInstanceDiffPtr_encodeInstanceDiffPtr (d : Option InstanceDiff)
    (fuel : Nat) (hfuel : (encodeInstanceDiffPtr d).length ≤ fuel) (r : Bytes) :
    decodeInstanceDiffPtr fuel (encodeInstanceDiffPtr d ++ r) = some (d, r) := by
  cases d with
  | none => rfl
  | some x =>
    have hlen : x.Attributes.length < fuel := by
      have := length_lt_encodeEntries encodeAttr x.Attributes
      simp only [encodeInstanceDiffPtr, encodeInstanceDiff, List.length_cons,
        List.length_append] at hfuel
      omega
    simp only [encodeInstanceDiffPtr, List.cons_append, decodeInstanceDiffPtr,
      decodeInstanceDiff_encodeInstanceDiff x fuel hlen]

/-- An encoded Diff reads back when the fuel is at least the length of its
encoding. -/
theorem decodeDiff_encodeDiff (d : Diff) (fuel : Nat)
    (hfuel : (encodeDiff d).length ≤ fuel) (r : Bytes) :
    decodeDiff fuel (encodeDiff d ++ r) = some (d, r) := by
  have h := decodeEntries_encodeEntries encodeInstanceDiffPtr
    (decodeInstanceDiffPtr fuel) d.Resources
    (fun kv hkv r => decodeInstanceDiffPtr_encodeInstanceDiffPtr kv.2 fuel
      (by
        have := length_enc_lt_encodeEntries encodeInstanceDiffPtr d.Resources kv hkv
        simp only [encodeDiff] at hfuel
        omega) r)
    fuel
    (by
      have := length_lt_encodeEntries encodeInstanceDiffPtr d.Resources
      simp only [encodeDiff] at hfuel
      omega)
  simp only [decodeDiff, encodeDiff, h]

/-- Every byte the encoder writes is below 256. -/
theorem encodeDiff_bytes (d : Diff) : ∀ b ∈ encodeDiff d, b < 256 := by
  have hbool : ∀ x : Bool, ∀ b ∈ encodeBool x, b < 256 := by
    intro x b hb
    cases x <;> simp [encodeBool] at hb <;> omega
  have hchars : ∀ cs : List Char, ∀ b ∈ encodeChars cs, b < 256 := by
    intro cs
    induction cs with
    | nil => intro b hb; simp [encodeChars] at hb; omega
    | cons c cs ih =>
      intro b hb
      have hc : c.toNat < 1114112 := by
        have := c.valid
        rcases c.valid with h | h
        · exact lt_trans h (by decide)
        · exact h.2
      simp only [encodeChars, encodeChar, List.cons_append, List.nil_append,
        List.mem_cons] at hb
      rcases hb with hb | hb | hb | hb | hb
      · omega
      · omega
      · omega
      · omega
      · exact ih b hb
  have hentries : ∀ (V : Type) (enc : V → Bytes) (m : GoMap V),
      (∀ kv ∈ m, ∀ b ∈ enc kv.2, b < 256) → ∀ b ∈ encodeEntries enc m, b < 256 := by
    intro V enc m
    induction m with
    | nil => intro _ b hb; simp [encodeEntries] at hb; omega
    | cons kv m ih =>
      intro henc b hb
      simp only [encodeEntries, List.mem_cons, List.mem_append] at hb
      rcases hb with hb | hb | hb | hb
      · omega
      · exact hchars _ b hb
      · exact henc kv (List.mem_cons_self _ _) b hb
      · exact ih (fun x hx => henc x (List.mem_cons_of_mem _ hx)) b hb
  have hattr : ∀ a : ResourceAttrDiff, ∀ b ∈ encodeAttr a, b < 256 := by
    intro a b hb
    simp only [encodeAttr, List.mem_append] at hb
    rcases hb with hb | hb | hb | hb | hb
    · exact hchars _ b hb
    · exact hchars _ b hb
    · exact hbool _ b hb
    · exact hbool _ b hb
    · exact hbool _ b hb
  have hptr : ∀ x : Option InstanceDiff, ∀ b ∈ encodeInstanceDiffPtr x, b < 256 := by
    intro x b hb
    cases x with
    | none => simp [encodeInstanceDiffPtr] at hb; omega
    | some i =>
      simp only [encodeInstanceDiffPtr, encodeInstanceDiff, List.mem_cons,
        List.mem_append] at hb
      rcases hb with hb | hb | hb
      · omega
      · exact hentries _ encodeAttr i.Attributes (fun kv _ => hattr kv.2) b hb
      · exact hbool _ b hb
  exact hentries _ encodeInstanceDiffPtr d.Resources (fun kv _ => hptr kv.2)

/-- C1: for every Diff `d`, `WriteDiff(d, buf)` on a fresh buffer succeeds
(nil error) and `ReadDiff(buf)` then succeeds (nil error), returns a Diff
equal to `d` in every resource address, attribute field and destroy flag, and
leaves the buffer empty. -/
theorem ReadDiff_WriteDiff (d : Diff) :
    (WriteDiff d []).2 = none
      ∧ ReadDiff (WriteDiff d []).1 = (some d, none, []) := by
  refine ⟨rfl, ?_⟩
  have h := decodeDiff_encodeDiff d (encodeDiff d).length (Nat.le_refl _) []
  simp only [List.append_nil] at h
  simp only [WriteDiff, List.nil_append, ReadDiff, h]

/-! ## Theorems: state file format -/

/-- Encoded list items read back when the item decoder reads back every item
of the list and the fuel exceeds the number of items. -/
theorem decodeList_encodeList {α : Type} (enc : α → Bytes)
    (dec : Bytes → Option (α × Bytes)) (f : α → α) (l : List α)
    (hdec : ∀ x ∈ l, ∀ r, dec (enc x ++ r) = some (f x, r))
    (fuel : Nat) (hfuel : l.length < fuel) (r : Bytes) :
    decodeList dec fuel (encodeList enc l ++ r) = some (l.map f, r) := by
  induction l generalizing fuel with
  | nil =>
    cases fuel with
    | zero => omega
    | succ n => rfl
  | cons x xs ih =>
    cases fuel with
    | zero => omega
    | succ n =>
      have h1 := hdec x (List.mem_cons_self _ _)
      have h2 := ih (fun y hy => hdec y (List.mem_cons_of_mem _ hy)) n
        (by simpa using hfuel)
      simp only [encodeList, List.cons_append, List.append_eq, List.append_assoc,
        decodeList, h1, h2, List.map_cons]

/-- Encoded map entries read back, value by value, when the value decoder
reads back every value of the map and the fuel exceeds the number of
entries. -/
theorem decodeEntries_encodeEntries_map {V : Type} (enc : V → Bytes)
    (dec : Bytes → Option (V × Bytes)) (f : V → V) (m : GoMap V)
    (hdec : ∀ kv ∈ m, ∀ r, dec (enc kv.2 ++ r) = some (f kv.2, r))
    (fuel : Nat) (hfuel : m.length < fuel) (r : Bytes) :
    decodeEntries dec fuel (encodeEntries enc m ++ r)
      = some (m.map (fun kv => (kv.1, f kv.2)), r) := by
  induction m generalizing fuel with
  | nil =>
    cases fuel with
    | zero => omega
    | succ n => rfl
  | cons kv m ih =>
    cases fuel with
    | zero => omega
    | succ n =>
      have h1 := hdec kv (List.mem_cons_self _ _)
      have h2 := ih (fun x hx => hdec x (List.mem_cons_of_mem _ hx)) n
        (by simpa using hfuel)
      simp only [encodeEntries, List.cons_append, List.append_eq, List.append_assoc,
        decodeEntries, decodeString_encodeString, h1, h2, List.map_cons]

/-- The encoding of a list is longer than its number of items. -/
theorem length_lt_encodeList {α : Type} (enc : α → Bytes) (l : List α) :
    l.length < (encodeList enc l).length := by
  induction l with
  | nil => simp [encodeList]
  | cons x xs ih =>
    simp only [encodeList, List.length_cons, List.length_append]
    omega

/-- The encoding of a list is longer than the encoding of each of its items. -/
theorem length_enc_lt_encodeList {α : Type} (enc : α → Bytes) (l : List α)
    (x : α) (h : x ∈ l) : (enc x).length < (encodeList enc l).length := by
  induction l with
  | nil => cases h
  | cons hd tl ih =>
    simp only [encodeList, List.length_cons, List.length_append]
    rcases List.mem_cons.1 h with h | h
    · subst h
      omega
    · have := ih h
      omega

/-- Encoded strings of a list read back. -/
theorem decodeList_encodeString (l : List String) (fuel : Nat)
    (hfuel : (encodeList encodeString l).length ≤ fuel) (r : Bytes) :
    decodeList decodeString fuel (encodeList encodeString l ++ r) = some (l, r) := by
  have h := decodeList_encodeList encodeString decodeString id l
    (fun x _ r => decodeString_encodeString x r) fuel
    (by have := length_lt_encodeList encodeString l; omega) r
  simpa using h

/-- An encoded natural number reads back when the fuel of the encoder is at
least the number. -/
theorem decodeNat_encodeNatAux (fuel n : Nat) (hn : n ≤ fuel) (r : Bytes) :
    decodeNat (encodeNatAux fuel n ++ r) = some (n, r) := by
  induction fuel generalizing n with
  | zero =>
    have : n = 0 := by omega
    subst this
    rfl
  | succ k ih =>
    by_cases h0 : n = 0
    · subst h0
      rfl
    · have hdiv : n / 256 ≤ k := by omega
      have hsum : n % 256 + 256 * (n / 256) = n := Nat.mod_add_div n 256
      simp only [encodeNatAux, h0, if_false, List.cons_append, decodeNat, ih _ hdiv, hsum]

/-- An encoded Go `int` reads back. -/
theorem decodeInt_encodeInt (z : Int) (r : Bytes) :
    decodeInt (encodeInt z ++ r) = some (z, r) := by
  have hn := decodeNat_encodeNatAux z.natAbs z.natAbs (Nat.le_refl _) r
  by_cases hz : z < 0
  · have habs : -((z.natAbs : Nat) : Int) = z := by omega
    simp only [encodeInt, hz, if_true, List.cons_append, decodeInt, encodeNat, hn, habs]
  · have habs : ((z.natAbs : Nat) : Int) = z := by omega
    simp only [encodeInt, hz, if_false, List.cons_append, decodeInt, encodeNat, hn, habs]

/-- An encoded InstanceState reads back as its persisted copy. -/
theorem decodeInstanceState_encodeInstanceState (i : InstanceState) (fuel : Nat)
    (hfuel : (encodeInstanceState i).length ≤ fuel) (r : Bytes) :
    decodeInstanceState fuel (encodeInstanceState i ++ r) = some (i.clearEphemeral, r) := by
  have hlen : i.Attributes.length < fuel := by
    have := length_lt_encodeEntries encodeString i.Attributes
    simp only [encodeInstanceState, List.length_append] at hfuel
    omega
  have h := decodeEntries_encodeEntries_map encodeString decodeString id i.Attributes
    (fun kv _ r => decodeString_encodeString kv.2 r) fuel hlen r
  simp only [id, Prod.mk.eta, List.map_id'] at h
  simp only [decodeInstanceState, encodeInstanceState, List.append_assoc,
    decodeString_encodeString, h, InstanceState.clearEphemeral]

/-- An encoded `*InstanceState` reads back as its persisted copy. -/
theorem decodeInstanceStatePtr_encodeInstanceStatePtr (i : Option InstanceState)
    (fuel : Nat) (hfuel : (encodeInstanceStatePtr i).length ≤ fuel) (r : Bytes) :
    decodeInstanceStatePtr fuel (encodeInstanceStatePtr i ++ r)
      = some (i.map InstanceState.clearEphemeral, r) := by
  cases i with
  | none => rfl
  | some x =>
    have hlen : (encodeInstanceState x).length ≤ fuel := by
      simp only [encodeInstanceStatePtr, List.length_cons] at hfuel
      omega
    simp only [encodeInstanceStatePtr, List.cons_append, decodeInstanceStatePtr,
      decodeInstanceState_encodeInstanceState x fuel hlen, Option.map_some']

/-- An encoded ResourceState reads back as its persisted copy. -/
theorem decodeResourceState_encodeResourceState (x : ResourceState) (fuel : Nat)
    (hfuel : (encodeResourceState x).length ≤ fuel) (r : Bytes) :
    decodeResourceState fuel (encodeResourceState x ++ r) = some (x.clearEphemeral, r) := by
  simp only [encodeResourceState, List.length_append] at hfuel
  have hdeps := decodeList_encodeString x.Dependencies fuel (by omega)
  have hprim := decodeInstanceStatePtr_encodeInstanceStatePtr x.Primary fuel (by omega)
  have hdep := decodeList_encodeList encodeInstanceState (decodeInstanceState fuel)
    InstanceState.clearEphemeral x.Deposed
    (fun y hy r => decodeInstanceState_encodeInstanceState y fuel
      (by have := length_enc_lt_encodeList encodeInstanceState x.Deposed y hy; omega) r)
    fuel (by have := length_lt_encodeList encodeInstanceState x.Deposed; omega)
  simp only [decodeResourceState, encodeResourceState, List.append_assoc,
    decodeString_encodeString, hdeps, hprim, hdep, ResourceState.clearEphemeral]

/-- An encoded ModuleState reads back as its persisted copy. -/
theorem decodeModuleState_encodeModuleState (m : ModuleState) (fuel : Nat)
    (hfuel : (encodeModuleState m).length ≤ fuel) (r : Bytes) :
    decodeModuleState fuel (encodeModuleState m ++ r) = some (m.clearEphemeral, r) := by
  simp only [encodeModuleState, List.length_append] at hfuel
  have hpath := decodeList_encodeString m.Path fuel (by omega)
  have hres := decodeEntries_encodeEntries_map encodeResourceState
    (decodeResourceState fuel) ResourceState.clearEphemeral m.Resources
    (fun kv hkv r => decodeResourceState_encodeResourceState kv.2 fuel
      (by have := length_enc_lt_encodeEntries encodeResourceState m.Resources kv hkv; omega) r)
    fuel (by have := length_lt_encodeEntries encodeResourceState m.Resources; omega)
  simp only [decodeModuleState, encodeModuleState, List.append_assoc, hpath, hres,
    ModuleState.clearEphemeral]

/-- An encoded State reads back as its persisted copy. -/
theorem decodeState_encodeState (s : State) (fuel : Nat)
    (hfuel : (encodeState s).length ≤ fuel) (r : Bytes) :
    decodeState fuel (encodeState s ++ r) = some (s.clearEphemeral, r) := by
  simp only [encodeState, List.length_append] at hfuel
  have hmods := decodeList_encodeList encodeModuleState (decodeModuleState fuel)
    ModuleState.clearEphemeral s.Modules
    (fun m hm r => decodeModuleState_encodeModuleState m fuel
      (by have := length_enc_lt_encodeList encodeModuleState s.Modules m hm; omega) r)
    fuel (by have := length_lt_encodeList encodeModuleState s.Modules; omega)
  simp only [decodeState, encodeState, List.append_assoc, decodeInt_encodeInt, hmods,
    State.clearEphemeral]

/-- A written state reads back as its persisted copy: everything but the
ephemeral payload. -/
theorem ReadState_WriteState (s : State) :
    ReadState (WriteState s) = some s.clearEphemeral := by
  have h := decodeState_encodeState s (encodeState s).length (Nat.le_refl _) []
  simp only [List.append_nil] at h
  simp only [ReadState, WriteState, h]

/-! ## Theorems: state model and apply engine -/

/-- Lookup after an update of the same key. -/
theorem GoMap.lookup_insert_self {V : Type} (m : GoMap V) (k : String) (v : V) :
    GoMap.lookup (GoMap.insert m k v) k = some v := by
  induction m with
  | nil => simp [GoMap.insert, GoMap.lookup, List.find?]
  | cons kv tl ih =>
    by_cases h : kv.1 = k
    · simp [GoMap.insert, GoMap.lookup, List.find?, h]
    · have hb : (kv.1 == k) = false := by simpa using h
      simp only [GoMap.insert, hb, Bool.false_eq_true, if_false]
      simpa [GoMap.lookup, List.find?, hb] using ih

/-- Lookup after an update of another key. -/
theorem GoMap.lookup_insert_ne {V : Type} (m : GoMap V) (k k2 : String) (v : V)
    (hne : k2 ≠ k) : GoMap.lookup (GoMap.insert m k v) k2 = GoMap.lookup m k2 := by
  induction m with
  | nil =>
    have hb : (k == k2) = false := by simpa using fun h => hne h.symm
    simp [GoMap.insert, GoMap.lookup, List.find?, hb]
  | cons kv tl ih =>
    by_cases h : kv.1 = k
    · have hb : (kv.1 == k2) = false := by
        simpa [h] using fun h2 => hne h2.symm
      have hb2 : (k == k2) = false := by simpa using fun h2 => hne h2.symm
      simp [GoMap.insert, GoMap.lookup, List.find?, h, hb, hb2]
    · have hb : (kv.1 == k) = false := by simpa using h
      simp only [GoMap.insert, hb, Bool.false_eq_true, if_false]
      by_cases h2 : kv.1 = k2
      · simp [GoMap.lookup, List.find?, h2]
      · have hb2 : (kv.1 == k2) = false := by simpa using h2
        simpa [GoMap.lookup, List.find?, hb2] using ih

/-- Lookup through a map of the values. -/
theorem GoMap.lookup_mapValues {V W : Type} (f : V → W) (m : GoMap V) (k : String) :
    GoMap.lookup (m.map (fun kv => (kv.1, f kv.2))) k = (GoMap.lookup m k).map f := by
  induction m with
  | nil => rfl
  | cons kv tl ih =>
    by_cases h : kv.1 = k
    · simp [GoMap.lookup, List.find?, h]
    · have hb : (kv.1 == k) = false := by simpa using h
      simpa [GoMap.lookup, List.find?, hb] using ih

/-- Finding the root module after its resource map was replaced. -/
theorem find_root_map (rs : GoMap ResourceState) (ms : List ModuleState) :
    (ms.map (fun m => if m.Path == rootPath then { m with Resources := rs } else m)).find?
        (fun m => m.Path == rootPath)
      = (ms.find? (fun m => m.Path == rootPath)).map
          (fun m => { m with Resources := rs }) := by
  induction ms with
  | nil => rfl
  | cons m tl ih =>
    cases hb : (m.Path == rootPath) with
    | true =>
      rw [List.map_cons, List.find?_cons, List.find?_cons]
      simp only [hb, if_true, Option.map_some']
    | false =>
      rw [List.map_cons, List.find?_cons, List.find?_cons]
      simp only [hb, Bool.false_eq_true, if_false]
      exact ih

/-- Finding the root module after it was appended to a state without one. -/
theorem find_root_append (x : ModuleState) (hx : (x.Path == rootPath) = true)
    (ms : List ModuleState)
    (hnone : (ms.any (fun m => m.Path == rootPath)) = false) :
    (ms ++ [x]).find? (fun m => m.Path == rootPath) = some x := by
  induction ms with
  | nil => simp [List.find?, hx]
  | cons m tl ih =>
    rw [List.any_cons, Bool.or_eq_false_iff] at hnone
    rw [List.cons_append, List.find?_cons]
    simp only [hnone.1]
    exact ih hnone.2

/-- The root module holds the resource map it was given. -/
theorem State.RootModule_setRootResources (s : State) (rs : GoMap ResourceState) :
    (s.setRootResources rs).RootModule.Resources = rs := by
  unfold State.setRootResources State.RootModule
  cases hany : s.Modules.any (fun m => m.Path == rootPath) with
  | true =>
    simp only [if_true]
    rw [find_root_map]
    obtain ⟨m, _, hm⟩ := List.any_eq_true.1 hany
    cases hf : s.Modules.find? (fun m => m.Path == rootPath) with
    | none =>
      have := List.find?_eq_none.1 hf m ‹m ∈ s.Modules›
      exact absurd hm this
    | some m2 => rfl
  | false =>
    simp only [Bool.false_eq_true, if_false]
    rw [find_root_append _ (by rfl) _ hany]
    rfl

/-- The root module of the persisted copy is the persisted copy of the root
module. -/
theorem State.RootModule_clearEphemeral (s : State) :
    s.clearEphemeral.RootModule.Resources
      = s.RootModule.Resources.map (fun kv => (kv.1, kv.2.clearEphemeral)) := by
  obtain ⟨v, n, ms⟩ := s
  simp only [State.clearEphemeral, State.RootModule]
  induction ms with
  | nil => simp [List.find?]
  | cons m tl ih =>
    by_cases h : m.Path = rootPath
    · simp [List.find?, h, ModuleState.clearEphemeral]
    · have hb : (m.Path == rootPath) = false := by simpa using h
      simpa [List.find?, hb, ModuleState.clearEphemeral] using ih

/-- The entry of a resource after it was updated. -/
theorem State.lookup_updateResource_self (s : State) (addr typ : String)
    (f : ResourceState → ResourceState) :
    GoMap.lookup (s.updateResource addr typ f).RootModule.Resources addr
      = some (f ((GoMap.lookup s.RootModule.Resources addr).getD
          { Typ := typ, Dependencies := [], Primary := none, Deposed := [],
            Provider := "" })) := by
  simp only [State.updateResource, State.RootModule_setRootResources,
    GoMap.lookup_insert_self]
  cases GoMap.lookup s.RootModule.Resources addr <;> rfl

/-- Updating a resource leaves the entries of the other resources alone. -/
theorem State.lookup_updateResource_ne (s : State) (addr typ addr2 : String)
    (f : ResourceState → ResourceState) (hne : addr2 ≠ addr) :
    GoMap.lookup (s.updateResource addr typ f).RootModule.Resources addr2
      = GoMap.lookup s.RootModule.Resources addr2 := by
  simp only [State.updateResource, State.RootModule_setRootResources]
  exact GoMap.lookup_insert_ne _ _ _ _ hne

/-- An update of a resource that keeps what a call returned keeps the call
recorded. -/
theorem State.records_updateResource (s : State) (addr typ : String)
    (f : ResourceState → ResourceState) (c : ApplyCall)
    (hf : ∀ rs : ResourceState, c.Addr = addr →
      (match c.Target with
        | CallTarget.primary => rs.Primary = c.State
        | CallTarget.deposed => ∀ x, c.State = some x → x ∈ rs.Deposed) →
      (match c.Target with
        | CallTarget.primary => (f rs).Primary = c.State
        | CallTarget.deposed => ∀ x, c.State = some x → x ∈ (f rs).Deposed))
    (h : s.records c) : (s.updateResource addr typ f).records c := by
  obtain ⟨rs, hl, hrec⟩ := h
  by_cases ha : c.Addr = addr
  · refine ⟨f rs, ?_, hf rs ha hrec⟩
    rw [ha, State.lookup_updateResource_self, ← ha, hl]
    rfl
  · exact ⟨rs, by rw [State.lookup_updateResource_ne _ _ _ _ _ ha]; exact hl, hrec⟩

/-- Parking the old instance keeps every call recorded. -/
theorem State.records_park (s : State) (addr typ : String) (c : ApplyCall)
    (h : s.records c) : (s.park addr typ).records c := by
  apply State.records_updateResource _ _ _ _ _ _ h
  intro rs _ hrec
  cases hT : c.Target with
  | primary =>
    simp only [hT] at hrec ⊢
    exact hrec
  | deposed =>
    simp only [hT] at hrec ⊢
    intro x hx
    exact List.mem_append_left _ (hrec x hx)

/-- The last call for an address after one more call was recorded. -/
theorem lastCall_append (calls : List ApplyCall) (c : ApplyCall) (addr : String) :
    lastCall (calls ++ [c]) addr
      = if c.Addr = addr then some c else lastCall calls addr := by
  unfold lastCall
  rw [List.reverse_append]
  by_cases h : c.Addr = addr
  · simp [List.find?, h]
  · have hb : (c.Addr == addr) = false := by simpa using h
    simp [List.find?, hb, h]

/-- A recorded call for an address has a last call for that address. -/
theorem lastCall_isSome_of_mem (calls : List ApplyCall) (c : ApplyCall)
    (hc : c ∈ calls) : ∃ c2, lastCall calls c.Addr = some c2 ∧ c2.Addr = c.Addr := by
  unfold lastCall
  have hmem : c ∈ calls.reverse := List.mem_reverse.2 hc
  cases hf : calls.reverse.find? (fun x => x.Addr == c.Addr) with
  | none =>
    have := List.find?_eq_none.1 hf c hmem
    simp at this
  | some c2 =>
    refine ⟨c2, rfl, ?_⟩
    have := List.find?_some hf
    simpa using this

/-- The invariant holds when a run starts. -/
theorem EngineInv_init (s : State) : EngineInv (EngineState.init s) := by
  constructor
  · intro addr c h
    simp [EngineState.init, lastCall] at h
  · intro c hc
    simp [EngineState.init] at hc

/-- Parking the old instance keeps the invariant. -/
theorem EngineInv_park (st : EngineState) (addr typ : String) (h : EngineInv st) :
    EngineInv { st with state := st.state.park addr typ } :=
  ⟨fun a c hc => State.records_park _ _ _ _ (h.1 a c hc), h.2⟩

/-- The provider call keeps the invariant. -/
theorem EngineInv_callProvider (st : EngineState) (addr typ : String)
    (target : CallTarget) (ret : Option InstanceState) (err : GoError)
    (h : EngineInv st) : EngineInv (callProvider st addr typ target ret err) := by
  obtain ⟨h1, h2⟩ := h
  constructor
  · intro a c hc
    simp only [callProvider] at hc ⊢
    rw [lastCall_append] at hc
    by_cases ha : addr = a
    · simp only [ha, if_true, Option.some.injEq] at hc
      subst hc
      subst ha
      cases target with
      | primary =>
        refine ⟨_, State.lookup_updateResource_self _ _ _ _, rfl⟩
      | deposed =>
        refine ⟨_, State.lookup_updateResource_self _ _ _ _, ?_⟩
        intro x hx
        simp only at hx
        simp [hx]
    · simp only [ha, if_false] at hc
      have hrec := h1 a c hc
      have hca : c.Addr ≠ addr := by
        obtain ⟨rs, hl, _⟩ := hrec
        intro hcontra
        have := List.find?_some hc
        simp only [beq_iff_eq] at this
        exact ha (hcontra.symm.trans this)
      obtain ⟨rs, hl, hr⟩ := hrec
      cases target with
      | primary =>
        exact ⟨rs, by
          simp only [State.setPrimary]
          rw [State.lookup_updateResource_ne _ _ _ _ _ hca]; exact hl, hr⟩
      | deposed =>
        exact ⟨rs, by
          simp only [State.setParked]
          rw [State.lookup_updateResource_ne _ _ _ _ _ hca]; exact hl, hr⟩
  · intro c hc hne
    simp only [callProvider, List.mem_append, List.mem_singleton] at hc ⊢
    rcases hc with hc | hc
    · have := h2 c hc hne
      cases err with
      | none => exact this
      | some e => simp
    · subst hc
      cases err with
      | none => simp at hne
      | some e => simp

/-- One apply cycle keeps the invariant. -/
theorem EngineInv_applyCycle (st : EngineState) (addr typ : String)
    (pre post : List (HookAction × GoError)) (park : Bool) (target : CallTarget)
    (ret : Option InstanceState) (err : GoError) (h : EngineInv st) :
    EngineInv (applyCycle st addr typ pre post park target ret err) := by
  have hhalt : ∀ x : EngineState, EngineInv x → EngineInv { x with halted := true } :=
    fun x hx => hx
  unfold applyCycle
  split
  · exact hhalt _ h
  · simp only
    have h0 : EngineInv (if park = true then { st with state := st.state.park addr typ }
        else st) := by
      split
      · exact EngineInv_park st addr typ h
      · exact h
    split
    · exact hhalt _ (EngineInv_callProvider _ _ _ _ _ _ h0)
    · exact EngineInv_callProvider _ _ _ _ _ _ h0

/-- Applying a diff keeps the invariant. -/
theorem EngineInv_applyDiff (st : EngineState) (r : ResourceStep)
    (d : Option InstanceDiff) (h : EngineInv st) : EngineInv (applyDiff st r d) := by
  unfold applyDiff
  split
  · exact h
  · split
    · split
      · simp only
        split
        · exact EngineInv_applyCycle _ _ _ _ _ _ _ _ _ h
        · exact EngineInv_applyCycle _ _ _ _ _ _ _ _ _
            (EngineInv_applyCycle _ _ _ _ _ _ _ _ _ h)
      · simp only
        split
        · exact EngineInv_applyCycle _ _ _ _ _ _ _ _ _ h
        · exact EngineInv_applyCycle _ _ _ _ _ _ _ _ _
            (EngineInv_applyCycle _ _ _ _ _ _ _ _ _ h)
    · exact EngineInv_applyCycle _ _ _ _ _ _ _ _ _ h

/-- One resource step keeps the invariant. -/
theorem EngineInv_applyResource (st : EngineState) (r : ResourceStep)
    (h : EngineInv st) : EngineInv (applyResource st r) := by
  have hhalt : ∀ x : EngineState, EngineInv x → EngineInv { x with halted := true } :=
    fun x hx => hx
  unfold applyResource
  split
  · exact h
  · split
    · exact hhalt _ h
    · split
      · exact hhalt _ h
      · split
        · split
          · exact EngineInv_applyDiff _ _ _ h
          · exact ⟨h.1, fun c _ _ => by simp⟩
        · exact EngineInv_applyDiff _ _ _ h

/-- A run keeps the invariant. -/
theorem EngineInv_applyAll (steps : List ResourceStep) (st : EngineState)
    (h : EngineInv st) : EngineInv (applyAll st steps) := by
  induction steps generalizing st with
  | nil => exact h
  | cons r rs ih => exact ih _ (EngineInv_applyResource st r h)

/-- The provider apply calls one cycle records. -/
theorem applyCycle_calls (st : EngineState) (addr typ : String)
    (pre post : List (HookAction × GoError)) (park : Bool) (target : CallTarget)
    (ret : Option InstanceState) (err : GoError) :
    (applyCycle st addr typ pre post park target ret err).applyCalls
      = st.applyCalls ++
          (if checkpoint pre = true then []
            else [{ Addr := addr, Target := target, State := ret, Error := err }]) := by
  unfold applyCycle
  by_cases hpre : checkpoint pre = true
  · simp [hpre]
  · simp only [hpre, Bool.false_eq_true, if_false]
    cases park <;> split <;> simp [callProvider]

/-- The provider apply calls applying a diff records: all for the address of
the resource, and a call that returned an error is the last of them. -/
theorem applyDiff_calls (st : EngineState) (r : ResourceStep) (d : Option InstanceDiff) :
    ∃ new : List ApplyCall,
      (applyDiff st r d).applyCalls = st.applyCalls ++ new
        ∧ (∀ x ∈ new, x.Addr = r.Addr)
        ∧ (∀ x ∈ new, x.Error ≠ none → new.getLast? = some x) := by
  have one : ∀ (pre : List (HookAction × GoError)) (target : CallTarget)
      (ret : Option InstanceState) (err : GoError),
      (∀ x ∈ (if checkpoint pre = true then []
          else [({ Addr := r.Addr, Target := target, State := ret, Error := err } :
            ApplyCall)]), x.Addr = r.Addr)
        ∧ (∀ x ∈ (if checkpoint pre = true then []
          else [({ Addr := r.Addr, Target := target, State := ret, Error := err } :
            ApplyCall)]), x.Error ≠ none →
            (if checkpoint pre = true then []
              else [({ Addr := r.Addr, Target := target, State := ret, Error := err } :
                ApplyCall)]).getLast? = some x) := by
    intro pre target ret err
    by_cases hpre : checkpoint pre = true
    · simp [hpre]
    · simp [hpre]
  have two : ∀ (pre1 pre2 : List (HookAction × GoError)) (t1 t2 : CallTarget)
      (ret1 ret2 : Option InstanceState) (err2 : GoError),
      (∀ x ∈ (if checkpoint pre1 = true then []
          else [({ Addr := r.Addr, Target := t1, State := ret1, Error := none } :
            ApplyCall)]) ++
          (if checkpoint pre2 = true then []
          else [({ Addr := r.Addr, Target := t2, State := ret2, Error := err2 } :
            ApplyCall)]), x.Addr = r.Addr)
        ∧ (∀ x ∈ (if checkpoint pre1 = true then []
          else [({ Addr := r.Addr, Target := t1, State := ret1, Error := none } :
            ApplyCall)]) ++
          (if checkpoint pre2 = true then []
          else [({ Addr := r.Addr, Target := t2, State := ret2, Error := err2 } :
            ApplyCall)]), x.Error ≠ none →
            ((if checkpoint pre1 = true then []
              else [({ Addr := r.Addr, Target := t1, State := ret1, Error := none } :
                ApplyCall)]) ++
              (if checkpoint pre2 = true then []
              else [({ Addr := r.Addr, Target := t2, State := ret2, Error := err2 } :
                ApplyCall)])).getLast? = some x) := by
    intro pre1 pre2 t1 t2 ret1 ret2 err2
    by_cases h1 : checkpoint pre1 = true <;> by_cases h2 : checkpoint pre2 = true
    · simp [h1, h2]
    · simp [h1, h2]
    · simp [h1, h2]
    · simp only [h1, h2, Bool.false_eq_true, if_false, List.singleton_append,
        List.mem_cons, List.mem_singleton, List.not_mem_nil, or_false]
      constructor
      · rintro x (hx | hx) <;> rw [hx]
      · rintro x (hx | hx) hne
        · rw [hx] at hne
          exact absurd rfl hne
        · rw [hx]
          rfl
  unfold applyDiff
  split
  · exact ⟨[], by simp, by simp, by simp⟩
  · split
    · split
      · simp only
        split
        · exact ⟨_, applyCycle_calls _ _ _ _ _ _ _ _ _, one _ _ _ _⟩
        · rename_i hcond
          have herr : r.ApplyError = none := by
            cases he : r.ApplyError with
            | none => rfl
            | some e => simp [he] at hcond
          refine ⟨_, by rw [applyCycle_calls, applyCycle_calls, List.append_assoc], ?_⟩
          rw [herr]
          exact two _ _ _ _ _ _ _
      · simp only
        split
        · exact ⟨_, applyCycle_calls _ _ _ _ _ _ _ _ _, one _ _ _ _⟩
        · rename_i hcond
          have herr : r.DestroyError = none := by
            cases he : r.DestroyError with
            | none => rfl
            | some e => simp [he] at hcond
          refine ⟨_, by rw [applyCycle_calls, applyCycle_calls, List.append_assoc], ?_⟩
          rw [herr]
          exact two _ _ _ _ _ _ _
    · exact ⟨_, applyCycle_calls _ _ _ _ _ _ _ _ _, one _ _ _ _⟩

/-- The provider apply calls one resource step records: all for the address
of the resource, and a call that returned an error is the last of them. -/
theorem applyResource_calls (st : EngineState) (r : ResourceStep) :
    ∃ new : List ApplyCall,
      (applyResource st r).applyCalls = st.applyCalls ++ new
        ∧ (∀ x ∈ new, x.Addr = r.Addr)
        ∧ (∀ x ∈ new, x.Error ≠ none → new.getLast? = some x) := by
  have hnil : ∀ x : EngineState, x.applyCalls = st.applyCalls →
      ∃ new : List ApplyCall, x.applyCalls = st.applyCalls ++ new
        ∧ (∀ y ∈ new, y.Addr = r.Addr)
        ∧ (∀ y ∈ new, y.Error ≠ none → new.getLast? = some y) :=
    fun x hx => ⟨[], by simp [hx], by simp, by simp⟩
  unfold applyResource
  split
  · exact hnil _ rfl
  · split
    · exact hnil _ rfl
    · split
      · exact hnil _ rfl
      · split
        · split
          · exact applyDiff_calls _ _ _
          · exact hnil _ rfl
        · exact applyDiff_calls _ _ _

/-- Calls for other addresses do not change the last call for an address. -/
theorem lastCall_append_of_ne (calls new : List ApplyCall) (addr : String)
    (hne : ∀ x ∈ new, x.Addr ≠ addr) :
    lastCall (calls ++ new) addr = lastCall calls addr := by
  unfold lastCall
  rw [List.reverse_append, List.find?_append]
  have : new.reverse.find? (fun c => c.Addr == addr) = none := by
    rw [List.find?_eq_none]
    intro x hx
    have := hne x (List.mem_reverse.1 hx)
    simpa using this
  rw [this]
  rfl

/-- The call recorded last is the last call for its address. -/
theorem lastCall_append_getLast (calls new : List ApplyCall) (x : ApplyCall)
    (hx : new.getLast? = some x) : lastCall (calls ++ new) x.Addr = some x := by
  obtain ⟨ys, hys⟩ := List.getLast?_eq_some_iff.1 hx
  rw [hys, ← List.append_assoc, lastCall_append]
  simp

/-- In a run that processes each address once, a provider apply call that
returned an error is the last call for its address. -/
theorem failing_call_is_last (steps : List ResourceStep) (st : EngineState)
    (done : List String)
    (hnd : (steps.map (fun r => r.Addr)).Nodup)
    (hdisj : ∀ r ∈ steps, r.Addr ∉ done)
    (h1 : ∀ x ∈ st.applyCalls, x.Addr ∈ done)
    (h2 : ∀ x ∈ st.applyCalls, x.Error ≠ none → lastCall st.applyCalls x.Addr = some x) :
    ∀ x ∈ (applyAll st steps).applyCalls, x.Error ≠ none →
      lastCall (applyAll st steps).applyCalls x.Addr = some x := by
  induction steps generalizing st done with
  | nil => exact h2
  | cons r rs ih =>
    rw [List.map_cons, List.nodup_cons] at hnd
    obtain ⟨new, hcalls, hn1, hn2⟩ := applyResource_calls st r
    have hr : r.Addr ∉ done := hdisj r (List.mem_cons_self _ _)
    apply ih (applyResource st r) (r.Addr :: done) hnd.2
    · intro r2 hr2 hmem
      rcases List.mem_cons.1 hmem with h | h
      · apply hnd.1
        rw [← h]
        exact List.mem_map.2 ⟨r2, hr2, rfl⟩
      · exact hdisj r2 (List.mem_cons_of_mem _ hr2) h
    · intro x hx
      rw [hcalls] at hx
      rcases List.mem_append.1 hx with hx | hx
      · exact List.mem_cons_of_mem _ (h1 x hx)
      · rw [hn1 x hx]
        exact List.mem_cons_self _ _
    · intro x hx hne
      rw [hcalls] at hx ⊢
      rcases List.mem_append.1 hx with hx | hx
      · rw [lastCall_append_of_ne]
        · exact h2 x hx hne
        · intro y hy hcontra
          apply hr
          rw [← hn1 y hy, hcontra]
          exact h1 x hx
      · exact lastCall_append_getLast _ _ _ (hn2 x hx hne)

/-- A property of the state that every update of the resource's entry keeps
holds after an apply cycle for the resource. -/
theorem applyCycle_state_ind (P : State → Prop) (st : EngineState) (addr typ : String)
    (pre post : List (HookAction × GoError)) (park : Bool) (target : CallTarget)
    (ret : Option InstanceState) (err : GoError)
    (hP : ∀ (s : State) (f : ResourceState → ResourceState),
      P s → P (s.updateResource addr typ f))
    (h : P st.state) :
    P (applyCycle st addr typ pre post park target ret err).state := by
  unfold applyCycle
  split
  · exact h
  · simp only
    have h0 : P (if park = true then { st with state := st.state.park addr typ }
        else st).state := by
      split
      · exact hP _ (fun r => { r with Deposed := r.Deposed ++ r.Primary.toList }) h
      · exact h
    have h1 : P (callProvider (if park = true then
        { st with state := st.state.park addr typ } else st) addr typ target ret err).state := by
      cases target
      · exact hP _ (fun r => { r with Primary := ret }) h0
      · exact hP _ (fun r => { r with Deposed := r.Deposed.dropLast ++ ret.toList }) h0
    split
    · exact h1
    · exact h1

/-- A property of the state that every update of the resource's entry keeps
holds after the resource was processed. -/
theorem applyResource_state_ind (P : State → Prop) (st : EngineState) (r : ResourceStep)
    (hP : ∀ (s : State) (f : ResourceState → ResourceState),
      P s → P (s.updateResource r.Addr r.Typ f))
    (h : P st.state) : P (applyResource st r).state := by
  have hdiff : ∀ d, P (applyDiff st r d).state := by
    intro d
    unfold applyDiff
    split
    · exact h
    · split
      · split
        · simp only
          split
          · exact applyCycle_state_ind P _ _ _ _ _ _ _ _ _ hP h
          · exact applyCycle_state_ind P _ _ _ _ _ _ _ _ _ hP
              (applyCycle_state_ind P _ _ _ _ _ _ _ _ _ hP h)
        · simp only
          split
          · exact applyCycle_state_ind P _ _ _ _ _ _ _ _ _ hP h
          · exact applyCycle_state_ind P _ _ _ _ _ _ _ _ _ hP
              (applyCycle_state_ind P _ _ _ _ _ _ _ _ _ hP h)
      · exact applyCycle_state_ind P _ _ _ _ _ _ _ _ _ hP h
  unfold applyResource
  split
  · exact h
  · split
    · exact h
    · split
      · exact h
      · split
        · split
          · exact hdiff _
          · exact h
        · exact hdiff _

/-- A property of the state that every update of the entry of a processed
resource keeps holds after the run. -/
theorem applyAll_state_ind (P : State → Prop) (steps : List ResourceStep)
    (st : EngineState)
    (hP : ∀ r ∈ steps, ∀ (s : State) (f : ResourceState → ResourceState),
      P s → P (s.updateResource r.Addr r.Typ f))
    (h : P st.state) : P (applyAll st steps).state := by
  induction steps generalizing st with
  | nil => exact h
  | cons r rs ih =>
    exact ih (applyResource st r)
      (fun r2 hr2 => hP r2 (List.mem_cons_of_mem _ hr2))
      (applyResource_state_ind P st r (hP r (List.mem_cons_self _ _)) h)

/-- Updating a resource keeps the version and the serial of the state. -/
theorem State.updateResource_Version_Serial (s : State) (addr typ : String)
    (f : ResourceState → ResourceState) :
    (s.updateResource addr typ f).Version = s.Version
      ∧ (s.updateResource addr typ f).Serial = s.Serial := by
  unfold State.updateResource State.setRootResources
  simp only
  split <;> exact ⟨rfl, rfl⟩

/-- A run keeps the version and the serial of the in-memory state. -/
theorem applyAll_Version_Serial (steps : List ResourceStep) (st : EngineState) :
    (applyAll st steps).state.Version = st.state.Version
      ∧ (applyAll st steps).state.Serial = st.state.Serial := by
  apply applyAll_state_ind
    (fun s => s.Version = st.state.Version ∧ s.Serial = st.state.Serial) steps st
  · intro r _ s f hs
    have h := State.updateResource_Version_Serial s r.Addr r.Typ f
    exact ⟨h.1.trans hs.1, h.2.trans hs.2⟩
  · exact ⟨rfl, rfl⟩

/-- A run leaves the entries of the resources it does not process alone. -/
theorem applyAll_frame (steps : List ResourceStep) (st : EngineState) (addr : String)
    (hne : ∀ r ∈ steps, r.Addr ≠ addr) :
    GoMap.lookup (applyAll st steps).state.RootModule.Resources addr
      = GoMap.lookup st.state.RootModule.Resources addr := by
  apply applyAll_state_ind
    (fun s => GoMap.lookup s.RootModule.Resources addr
      = GoMap.lookup st.state.RootModule.Resources addr) steps st
  · intro r hr s f hs
    rw [State.lookup_updateResource_ne _ _ _ _ _ (fun h => hne r hr h.symm)]
    exact hs
  · rfl

/-- An apply cycle whose provider call succeeds collects no error. -/
theorem applyCycle_errors (st : EngineState) (addr typ : String)
    (pre post : List (HookAction × GoError)) (park : Bool) (target : CallTarget)
    (ret : Option InstanceState) :
    (applyCycle st addr typ pre post park target ret none).errors = st.errors := by
  unfold applyCycle
  split
  · rfl
  · simp only
    cases park <;> split <;> rfl

/-- A resource whose provider calls succeed and whose plan, if any, matches
the recomputed diff collects no error. -/
theorem applyResource_errors (st : EngineState) (r : ResourceStep)
    (hA : r.ApplyError = none) (hD : r.DestroyError = none)
    (hplan : ∀ p, r.Plan = some p → InstanceDiff.Same r.Diff p = true) :
    (applyResource st r).errors = st.errors := by
  have hdiff : ∀ d, (applyDiff st r d).errors = st.errors := by
    intro d
    unfold applyDiff
    rw [hA, hD]
    split
    · rfl
    · split
      · split
        · simp only
          split
          · exact applyCycle_errors _ _ _ _ _ _ _ _
          · rw [applyCycle_errors, applyCycle_errors]
        · simp only
          split
          · exact applyCycle_errors _ _ _ _ _ _ _ _
          · rw [applyCycle_errors, applyCycle_errors]
      · exact applyCycle_errors _ _ _ _ _ _ _ _
  unfold applyResource
  split
  · rfl
  · split
    · rfl
    · split
      · rfl
      · split
        · rename_i p hp
          rw [if_pos (hplan p hp)]
          exact hdiff _
        · exact hdiff _

/-- A run in which every provider call succeeds and no plan drifts collects no
error. -/
theorem applyAll_errors (steps : List ResourceStep) (st : EngineState)
    (hok : ∀ r ∈ steps, r.ApplyError = none ∧ r.DestroyError = none
      ∧ ∀ p, r.Plan = some p → InstanceDiff.Same r.Diff p = true) :
    (applyAll st steps).errors = st.errors := by
  induction steps generalizing st with
  | nil => rfl
  | cons r rs ih =>
    have hr := hok r (List.mem_cons_self _ _)
    have := ih (applyResource st r) (fun r2 hr2 => hok r2 (List.mem_cons_of_mem _ hr2))
    exact this.trans (applyResource_errors st r hr.1 hr.2.1 hr.2.2)

/-- The persisted copy of a resource state is its own persisted copy. -/
theorem ResourceState.clearEphemeral_twice (r : ResourceState) :
    r.clearEphemeral.clearEphemeral = r.clearEphemeral := by
  have hc : InstanceState.clearEphemeral ∘ InstanceState.clearEphemeral
      = InstanceState.clearEphemeral := funext fun _ => rfl
  obtain ⟨t, d, p, dep, pr⟩ := r
  simp only [ResourceState.clearEphemeral, Option.map_map, List.map_map, hc]

/-- The persisted copy of a state is its own persisted copy. -/
theorem State.clearEphemeral_idem (s : State) :
    s.clearEphemeral.clearEphemeral = s.clearEphemeral := by
  have hr : (fun kv : String × ResourceState => (kv.1, kv.2.clearEphemeral))
      ∘ (fun kv : String × ResourceState => (kv.1, kv.2.clearEphemeral))
      = (fun kv : String × ResourceState => (kv.1, kv.2.clearEphemeral)) :=
    funext fun kv => by simp only [Function.comp, ResourceState.clearEphemeral_twice]
  have hm : ModuleState.clearEphemeral ∘ ModuleState.clearEphemeral
      = ModuleState.clearEphemeral := by
    funext m
    obtain ⟨p, rs⟩ := m
    simp only [Function.comp, ModuleState.clearEphemeral, List.map_map, hr]
  obtain ⟨v, n, ms⟩ := s
  simp only [State.clearEphemeral, List.map_map, hm]

/-- The persisted copy of a state records the persisted copy of what a call
returned. -/
theorem State.records_clearEphemeral (s : State) (c : ApplyCall) (h : s.records c) :
    s.clearEphemeral.records
      { c with State := c.State.map InstanceState.clearEphemeral } := by
  obtain ⟨rs, hl, hm⟩ := h
  refine ⟨rs.clearEphemeral, ?_, ?_⟩
  · rw [State.RootModule_clearEphemeral, GoMap.lookup_mapValues, hl]
    rfl
  · obtain ⟨a, t, x, e⟩ := c
    cases t with
    | primary =>
      simp only at hm ⊢
      simp only [ResourceState.clearEphemeral, hm]
    | deposed =>
      simp only at hm ⊢
      intro y hy
      cases x with
      | none => simp at hy
      | some x0 =>
        simp only [Option.map_some', Option.some.injEq] at hy
        subst hy
        simp only [ResourceState.clearEphemeral]
        exact List.mem_map_of_mem _ (hm x0 rfl)

/-- Raising the serial leaves the modules and the version alone. -/
theorem State.nextSerial_Modules (loaded final : State) :
    (State.nextSerial loaded final).Modules = final.Modules
      ∧ (State.nextSerial loaded final).Version = final.Version := by
  unfold State.nextSerial
  split <;> exact ⟨rfl, rfl⟩

/-- The persisted copy of the state with its serial raised holds the persisted
copies of the resources of the final state. -/
theorem State.nextSerial_records (loaded final : State) (c : ApplyCall)
    (h : final.records c) :
    (State.nextSerial loaded final).clearEphemeral.records
      { c with State := c.State.map InstanceState.clearEphemeral } := by
  apply State.records_clearEphemeral
  obtain ⟨rs, hl, hm⟩ := h
  refine ⟨rs, ?_, hm⟩
  unfold State.RootModule
  rw [(State.nextSerial_Modules loaded final).1]
  exact hl

/-- The resources of the persisted copy of the state with its serial raised. -/
theorem State.nextSerial_lookup (loaded final : State) (addr : String) :
    GoMap.lookup (State.nextSerial loaded final).clearEphemeral.RootModule.Resources addr
      = GoMap.lookup final.clearEphemeral.RootModule.Resources addr := by
  rw [State.RootModule_clearEphemeral, State.RootModule_clearEphemeral]
  unfold State.RootModule
  rw [(State.nextSerial_Modules loaded final).1]

/-- Persisting writes the new contents at the target path. -/
theorem persistState_target {B : Type} (fs : FileSystem B) (target : String)
    (backup : Option String) (c : B) :
    persistState fs target backup c target = some c := by
  simp [persistState, FileSystem.write]

/-- With a backup path other than the target, persisting over an existing
file copies its contents to the backup path. -/
theorem persistState_backup {B : Type} (fs : FileSystem B) (target b : String)
    (cur c : B) (hcur : fs target = some cur) (hne : b ≠ target) :
    persistState fs target (some b) c b = some cur := by
  simp [persistState, FileSystem.write, hcur, hne]

/-- Persisting without a backup path changes the target path only. -/
theorem persistState_none_frame {B : Type} (fs : FileSystem B) (target : String)
    (c : B) (q : String) (hq : q ≠ target) :
    persistState fs target none c q = fs q := by
  cases h : fs target <;> simp [persistState, FileSystem.write, h, hq]

/-- A run that loaded its state persists the final state with its serial and
reports the exit code of the engine. -/
theorem ApplyCommand.Run_eq (ext : String) (fs : FileSystem Bytes)
    (statePath : String) (backupArg : Option String) (steps : List ResourceStep)
    (s0 : State) (hload : loadState fs statePath = some s0) :
    ApplyCommand.Run ext fs statePath backupArg steps
      = (persistState fs statePath (backupPathOf statePath backupArg ext)
          (WriteState (State.nextSerial s0 (applyAll (EngineState.init s0) steps).state)),
         exitCode (applyAll (EngineState.init s0) steps)) := by
  simp only [ApplyCommand.Run, hload]

/-! ## Theorems: apply runs (apply_test.go) -/

/-- C8: in an apply run whose state loaded and in which a provider apply call
for a resource returned an error, the run exits with code 1; the final state
has an entry for the resource that records what the last provider apply call
for the resource returned, and that last call is the failing call itself when
the run processes each address once; and the state file written at the end
decodes to a state that contains the resource, with the persisted copy of
what that call returned. -/
theorem apply_error_spec (ext : String) (fs : FileSystem Bytes) (statePath : String)
    (backupArg : Option String) (steps : List ResourceStep) (s0 : State)
    (c : ApplyCall) (e : String)
    (hload : loadState fs statePath = some s0)
    (hcall : c ∈ (applyAll (EngineState.init s0) steps).applyCalls)
    (herr : c.Error = some e) :
    (ApplyCommand.Run ext fs statePath backupArg steps).2 = 1
      ∧ ∃ last : ApplyCall,
          lastCall (applyAll (EngineState.init s0) steps).applyCalls c.Addr = some last
          ∧ ((steps.map (fun r => r.Addr)).Nodup → last = c)
          ∧ (applyAll (EngineState.init s0) steps).state.records last
          ∧ ∃ (bytes : Bytes) (s : State),
              (ApplyCommand.Run ext fs statePath backupArg steps).1 statePath = some bytes
              ∧ ReadState bytes = some s
              ∧ c.Addr ∈ GoMap.keys s.RootModule.Resources
              ∧ s.records { last with State := last.State.map InstanceState.clearEphemeral } := by
  have hinv := EngineInv_applyAll steps _ (EngineInv_init s0)
  have hne : c.Error ≠ none := by rw [herr]; exact Option.some_ne_none e
  rw [ApplyCommand.Run_eq ext fs statePath backupArg steps s0 hload]
  obtain ⟨last, hlast, hladdr⟩ := lastCall_isSome_of_mem _ _ hcall
  have hrec := hinv.1 c.Addr last hlast
  have herrs := hinv.2 c hcall hne
  have hpers := State.nextSerial_records s0 _ last hrec
  refine ⟨?_, last, hlast, ?_, hrec, _, _, persistState_target _ _ _ _,
    ReadState_WriteState _, ?_, hpers⟩
  · unfold exitCode
    cases hx : (applyAll (EngineState.init s0) steps).errors with
    | nil => exact absurd hx herrs
    | cons a tl => rfl
  · intro hnd
    have := failing_call_is_last steps (EngineState.init s0) [] hnd
      (fun _ _ h => by simp at h) (fun x hx => by simp [EngineState.init] at hx)
      (fun x hx => by simp [EngineState.init] at hx) c hcall hne
    rw [hlast] at this
    exact Option.some.inj this
  · obtain ⟨rs, hl, _⟩ := hpers
    have hmem := GoMap.mem_keys_of_lookup _ _ _ hl
    simpa [hladdr] using hmem

/-- C8 at the scenario of `TestApply_error`: no state file at the start, one
resource whose provider apply call returns `nil` and an error. -/
theorem apply_error_spec_witness :
    (loadState (fun _ => none) "terraform.tfstate" = some State.empty
      ∧ ({ Addr := "test_instance.foo", Target := CallTarget.primary, State := none,
           Error := some "error" } : ApplyCall)
          ∈ (applyAll (EngineState.init State.empty) [applyErrorStep]).applyCalls)
    ∧ ((ApplyCommand.Run ".backup" (fun _ => none) "terraform.tfstate" none
          [applyErrorStep]).2 = 1
      ∧ ∃ last : ApplyCall,
          lastCall (applyAll (EngineState.init State.empty) [applyErrorStep]).applyCalls
              "test_instance.foo" = some last
          ∧ (([applyErrorStep].map (fun r => r.Addr)).Nodup
              → last = { Addr := "test_instance.foo", Target := CallTarget.primary,
                         State := none, Error := some "error" })
          ∧ (applyAll (EngineState.init State.empty) [applyErrorStep]).state.records last
          ∧ ∃ (bytes : Bytes) (s : State),
              (ApplyCommand.Run ".backup" (fun _ => none) "terraform.tfstate" none
                  [applyErrorStep]).1 "terraform.tfstate" = some bytes
              ∧ ReadState bytes = some s
              ∧ "test_instance.foo" ∈ GoMap.keys s.RootModule.Resources
              ∧ s.records
                  { last with State := last.State.map InstanceState.clearEphemeral }) :=
  ⟨⟨rfl, by decide⟩,
   apply_error_spec ".backup" (fun _ => none) "terraform.tfstate" none [applyErrorStep]
     State.empty
     { Addr := "test_instance.foo", Target := CallTarget.primary, State := none,
       Error := some "error" }
     "error" rfl (by decide) rfl⟩

set_option maxRecDepth 100000 in
/-- The model passes the checks of `TestApply_error`: exit code 1, and the
state file decodes to a state whose root module has a resource. -/
theorem TestApply_error_holds :
    (ApplyCommand.Run ".backup" (fun _ => none) "terraform.tfstate" none
        [applyErrorStep]).2 = 1
      ∧ (((ApplyCommand.Run ".backup" (fun _ => none) "terraform.tfstate" none
            [applyErrorStep]).1 "terraform.tfstate").bind ReadState).map
          (fun s => GoMap.keys s.RootModule.Resources)
        = some ["test_instance.foo"] := by
  decide

set_option maxRecDepth 100000 in
/-- A create-before-destroy replacement whose second cycle fails: the run
exits with code 1 and the state file holds the new instance as primary and
the old instance, returned by the failing call, in `deposed`. -/
theorem replaceError_holds :
    (ApplyCommand.Run ".backup" originalFiles "terraform.tfstate" none
        [replaceErrorStep]).2 = 1
      ∧ (((ApplyCommand.Run ".backup" originalFiles "terraform.tfstate" none
            [replaceErrorStep]).1 "terraform.tfstate").bind ReadState).map
          (fun s => (GoMap.lookup s.RootModule.Resources "test_instance.foo").map
            (fun r => (r.Primary.map (fun i => i.ID), r.Deposed.map (fun i => i.ID))))
        = some (some (some "baz", ["bar"])) := by
  decide

/-- C9: in an apply run against a state file that exists at the target path
(the written pre-apply state), with backup not disabled and a backup path (the
given `-backup` path, or the target path plus the default extension) other
than the target path, the backup file holds the exact bytes the state file
had before the run, and decodes to the pre-apply state with the ephemeral
connection info cleared; and the target path holds the new state: it decodes
to the state of the run, which has the version of the pre-apply state, equals
the persisted pre-apply state or has its serial raised by one, records what
the last provider apply call for each resource returned, and has the entries
of the resources the run did not process unchanged. -/
theorem apply_backup_spec (ext : String) (fs : FileSystem Bytes) (statePath : String)
    (backupArg : Option String) (steps : List ResourceStep) (pre : State) (b : String)
    (hfile : fs statePath = some (WriteState pre))
    (hb : backupPathOf statePath backupArg ext = some b)
    (hne : b ≠ statePath) :
    (ApplyCommand.Run ext fs statePath backupArg steps).1 b = fs statePath
      ∧ ((ApplyCommand.Run ext fs statePath backupArg steps).1 b).bind ReadState
          = some pre.clearEphemeral
      ∧ ∃ (bytes : Bytes) (s : State),
          (ApplyCommand.Run ext fs statePath backupArg steps).1 statePath = some bytes
          ∧ ReadState bytes = some s
          ∧ s.Version = pre.Version
          ∧ (s = pre.clearEphemeral ∨ s.Serial = pre.Serial + 1)
          ∧ (∀ (addr : String) (c : ApplyCall),
              lastCall (applyAll (EngineState.init pre.clearEphemeral) steps).applyCalls addr
                = some c →
              s.records { c with State := c.State.map InstanceState.clearEphemeral })
          ∧ (∀ addr : String, (∀ r ∈ steps, r.Addr ≠ addr) →
              GoMap.lookup s.RootModule.Resources addr
                = GoMap.lookup pre.clearEphemeral.RootModule.Resources addr) := by
  have hload : loadState fs statePath = some pre.clearEphemeral := by
    simp only [loadState, hfile, ReadState_WriteState]
  have hinv := EngineInv_applyAll steps _ (EngineInv_init pre.clearEphemeral)
  have hvs := applyAll_Version_Serial steps (EngineState.init pre.clearEphemeral)
  rw [ApplyCommand.Run_eq ext fs statePath backupArg steps _ hload, hb]
  have h1 := persistState_backup fs statePath b (WriteState pre)
    (WriteState (State.nextSerial pre.clearEphemeral
      (applyAll (EngineState.init pre.clearEphemeral) steps).state)) hfile hne
  refine ⟨h1.trans hfile.symm, ?_, _, _, persistState_target _ _ _ _,
    ReadState_WriteState _, ?_, ?_, ?_, ?_⟩
  · simp only [h1, Option.some_bind, ReadState_WriteState]
  · show (State.nextSerial _ _).Version = pre.Version
    rw [(State.nextSerial_Modules _ _).2, hvs.1]
    rfl
  · unfold State.nextSerial
    split
    · rename_i heq
      left
      rw [heq, State.clearEphemeral_idem]
    · right
      show (applyAll (EngineState.init pre.clearEphemeral) steps).state.Serial + 1
        = pre.Serial + 1
      rw [hvs.2]
      rfl
  · intro addr c hc
    exact State.nextSerial_records _ _ c (hinv.1 addr c hc)
  · intro addr hna
    rw [State.nextSerial_lookup, State.RootModule_clearEphemeral, GoMap.lookup_mapValues,
      applyAll_frame steps _ addr hna]
    show Option.map _ (GoMap.lookup pre.clearEphemeral.RootModule.Resources addr) = _
    rw [State.RootModule_clearEphemeral, GoMap.lookup_mapValues, Option.map_map]
    congr 1
    exact funext fun r => ResourceState.clearEphemeral_twice r

/-- C9 at the scenario of `TestApply_state`: the written `originalState` at
`terraform.tfstate`, and the default backup path `terraform.tfstate.backup`. -/
theorem apply_backup_spec_witness :
    (originalFiles "terraform.tfstate" = some (WriteState originalState)
      ∧ backupPathOf "terraform.tfstate" none ".backup" = some "terraform.tfstate.backup"
      ∧ "terraform.tfstate.backup" ≠ "terraform.tfstate")
    ∧ ((ApplyCommand.Run ".backup" originalFiles "terraform.tfstate" none
          [applyStateStep]).1 "terraform.tfstate.backup" = originalFiles "terraform.tfstate"
      ∧ ((ApplyCommand.Run ".backup" originalFiles "terraform.tfstate" none
          [applyStateStep]).1 "terraform.tfstate.backup").bind ReadState
          = some originalState.clearEphemeral
      ∧ ∃ (bytes : Bytes) (s : State),
          (ApplyCommand.Run ".backup" originalFiles "terraform.tfstate" none
              [applyStateStep]).1 "terraform.tfstate" = some bytes
          ∧ ReadState bytes = some s
          ∧ s.Version = originalState.Version
          ∧ (s = originalState.clearEphemeral ∨ s.Serial = originalState.Serial + 1)
          ∧ (∀ (addr : String) (c : ApplyCall),
              lastCall (applyAll (EngineState.init originalState.clearEphemeral)
                  [applyStateStep]).applyCalls addr = some c →
              s.records { c with State := c.State.map InstanceState.clearEphemeral })
          ∧ (∀ addr : String, (∀ r ∈ [applyStateStep], r.Addr ≠ addr) →
              GoMap.lookup s.RootModule.Resources addr
                = GoMap.lookup originalState.clearEphemeral.RootModule.Resources addr)) :=
  ⟨⟨by simp [originalFiles, FileSystem.write], by decide, by decide⟩,
   apply_backup_spec ".backup" originalFiles "terraform.tfstate" none [applyStateStep]
     originalState "terraform.tfstate.backup" (by simp [originalFiles, FileSystem.write])
     (by decide) (by decide)⟩

set_option maxRecDepth 100000 in
/-- The model passes the checks of `TestApply_state`: exit code 0, the state
file decodes to a state in which `test_instance.foo` has the attribute `ami`
set to `bar`, with the serial raised, and the backup file decodes to
`originalState` with the connection info cleared. -/
theorem TestApply_state_holds :
    (ApplyCommand.Run ".backup" originalFiles "terraform.tfstate" none
        [applyStateStep]).2 = 0
      ∧ ((ApplyCommand.Run ".backup" originalFiles "terraform.tfstate" none
            [applyStateStep]).1 "terraform.tfstate").bind ReadState
        = some { Version := 1, Serial := 4,
                 Modules := [{ Path := ["root"],
                               Resources := [("test_instance.foo",
                                 { Typ := "test_instance", Dependencies := [],
                                   Primary := some { ID := "bar",
                                                     Attributes := [("ami", "bar")],
                                                     Ephemeral := { ConnInfo := [] } },
                                   Deposed := [], Provider := "" })] }] }
      ∧ ((ApplyCommand.Run ".backup" originalFiles "terraform.tfstate" none
            [applyStateStep]).1 "terraform.tfstate.backup").bind ReadState
        = some { Version := 1, Serial := 3,
                 Modules := [{ Path := ["root"],
                               Resources := [("test_instance.foo",
                                 { Typ := "test_instance", Dependencies := [],
                                   Primary := some { ID := "bar", Attributes := [],
                                                     Ephemeral := { ConnInfo := [] } },
                                   Deposed := [], Provider := "" })] }] } := by
  decide

set_option maxRecDepth 100000 in
/-- The model passes the checks of `TestApply_backup`: with `-backup` naming
a path of its own, the backup file is written there, not at the default
path, and decodes to `originalState` with the connection info cleared. -/
theorem TestApply_backup_holds :
    (ApplyCommand.Run ".backup" originalFiles "terraform.tfstate" (some "backup.tfstate")
        [applyStateStep]).2 = 0
      ∧ ((ApplyCommand.Run ".backup" originalFiles "terraform.tfstate"
            (some "backup.tfstate") [applyStateStep]).1 "backup.tfstate").bind ReadState
        = some originalState.clearEphemeral
      ∧ (ApplyCommand.Run ".backup" originalFiles "terraform.tfstate"
            (some "backup.tfstate") [applyStateStep]).1 "terraform.tfstate.backup" = none := by
  decide

/-- C17: in an apply run with backup disabled by the sentinel `-` whose state
loaded, there is no backup path; no file other than the state file is created
or changed, so no file appears at the target path plus the default backup
extension; the state file is written and decodes to the updated state, which
records what the last provider apply call for each resource returned and
leaves the entries of the resources the run did not process as loaded; the
exit code and the state file are those of the same run with any other backup
argument; and the run exits with code 0 when no provider apply call returns
an error and no plan drifts. -/
theorem apply_disableBackup_spec (ext : String) (fs : FileSystem Bytes)
    (statePath : String) (steps : List ResourceStep) (s0 : State)
    (hload : loadState fs statePath = some s0) :
    backupPathOf statePath (some "-") ext = none
      ∧ (∀ q : String, q ≠ statePath →
          (ApplyCommand.Run ext fs statePath (some "-") steps).1 q = fs q)
      ∧ (statePath ++ ext ≠ statePath → fs (statePath ++ ext) = none →
          (ApplyCommand.Run ext fs statePath (some "-") steps).1 (statePath ++ ext) = none)
      ∧ (∃ (bytes : Bytes) (s : State),
          (ApplyCommand.Run ext fs statePath (some "-") steps).1 statePath = some bytes
          ∧ ReadState bytes = some s
          ∧ (∀ (addr : String) (c : ApplyCall),
              lastCall (applyAll (EngineState.init s0) steps).applyCalls addr = some c →
              s.records { c with State := c.State.map InstanceState.clearEphemeral })
          ∧ (∀ addr : String, (∀ r ∈ steps, r.Addr ≠ addr) →
              GoMap.lookup s.RootModule.Resources addr
                = GoMap.lookup s0.clearEphemeral.RootModule.Resources addr))
      ∧ (∀ backupArg : Option String,
          (ApplyCommand.Run ext fs statePath backupArg steps).2
              = (ApplyCommand.Run ext fs statePath (some "-") steps).2
            ∧ (ApplyCommand.Run ext fs statePath backupArg steps).1 statePath
              = (ApplyCommand.Run ext fs statePath (some "-") steps).1 statePath)
      ∧ ((∀ r ∈ steps, r.ApplyError = none ∧ r.DestroyError = none
            ∧ ∀ p, r.Plan = some p → InstanceDiff.Same r.Diff p = true) →
          (ApplyCommand.Run ext fs statePath (some "-") steps).2 = 0) := by
  have hb : backupPathOf statePath (some "-") ext = none := by
    simp [backupPathOf]
  have hinv := EngineInv_applyAll steps _ (EngineInv_init s0)
  have hrun : ∀ backupArg, ApplyCommand.Run ext fs statePath backupArg steps = _ :=
    fun backupArg => ApplyCommand.Run_eq ext fs statePath backupArg steps s0 hload
  rw [hrun (some "-"), hb]
  refine ⟨rfl, fun q hq => persistState_none_frame _ _ _ _ hq, fun hne hfile => ?_,
    ⟨_, _, persistState_target _ _ _ _, ReadState_WriteState _, ?_, ?_⟩,
    fun backupArg => ?_, fun hok => ?_⟩
  · simp only
    rw [persistState_none_frame _ _ _ _ hne, hfile]
  · intro addr c hc
    exact State.nextSerial_records _ _ c (hinv.1 addr c hc)
  · intro addr hna
    rw [State.nextSerial_lookup, State.RootModule_clearEphemeral, GoMap.lookup_mapValues,
      applyAll_frame steps _ addr hna, State.RootModule_clearEphemeral,
      GoMap.lookup_mapValues]
    rfl
  · rw [hrun backupArg]
    exact ⟨rfl, by simp only [persistState_target]⟩
  · simp only [exitCode]
    rw [applyAll_errors steps _ hok]
    rfl

/-- C17 at the scenario of `TestApply_disableBackup`: the written
`originalState` at `terraform.tfstate`, a diff that changes `ami`, and
`-backup -`. -/
theorem apply_disableBackup_spec_witness :
    loadState originalFiles "terraform.tfstate" = some originalState.clearEphemeral
    ∧ (backupPathOf "terraform.tfstate" (some "-") ".backup" = none
      ∧ (∀ q : String, q ≠ "terraform.tfstate" →
          (ApplyCommand.Run ".backup" originalFiles "terraform.tfstate" (some "-")
            [applyStateStep]).1 q = originalFiles q)
      ∧ ("terraform.tfstate" ++ ".backup" ≠ "terraform.tfstate" →
          originalFiles ("terraform.tfstate" ++ ".backup") = none →
          (ApplyCommand.Run ".backup" originalFiles "terraform.tfstate" (some "-")
            [applyStateStep]).1 ("terraform.tfstate" ++ ".backup") = none)
      ∧ (∃ (bytes : Bytes) (s : State),
          (ApplyCommand.Run ".backup" originalFiles "terraform.tfstate" (some "-")
            [applyStateStep]).1 "terraform.tfstate" = some bytes
          ∧ ReadState bytes = some s
          ∧ (∀ (addr : String) (c : ApplyCall),
              lastCall (applyAll (EngineState.init originalState.clearEphemeral)
                  [applyStateStep]).applyCalls addr = some c →
              s.records { c with State := c.State.map InstanceState.clearEphemeral })
          ∧ (∀ addr : String, (∀ r ∈ [applyStateStep], r.Addr ≠ addr) →
              GoMap.lookup s.RootModule.Resources addr
                = GoMap.lookup
                    originalState.clearEphemeral.clearEphemeral.RootModule.Resources addr))
      ∧ (∀ backupArg : Option String,
          (ApplyCommand.Run ".backup" originalFiles "terraform.tfstate" backupArg
              [applyStateStep]).2
              = (ApplyCommand.Run ".backup" originalFiles "terraform.tfstate" (some "-")
                  [applyStateStep]).2
            ∧ (ApplyCommand.Run ".backup" originalFiles "terraform.tfstate" backupArg
                [applyStateStep]).1 "terraform.tfstate"
              = (ApplyCommand.Run ".backup" originalFiles "terraform.tfstate" (some "-")
                  [applyStateStep]).1 "terraform.tfstate")
      ∧ ((∀ r ∈ [applyStateStep], r.ApplyError = none ∧ r.DestroyError = none
            ∧ ∀ p, r.Plan = some p → InstanceDiff.Same r.Diff p = true) →
          (ApplyCommand.Run ".backup" originalFiles "terraform.tfstate" (some "-")
            [applyStateStep]).2 = 0)) :=
  ⟨by simp [loadState, originalFiles, FileSystem.write, ReadState_WriteState],
   apply_disableBackup_spec ".backup" originalFiles "terraform.tfstate" [applyStateStep]
     originalState.clearEphemeral
     (by simp [loadState, originalFiles, FileSystem.write, ReadState_WriteState])⟩

set_option maxRecDepth 100000 in
/-- The model passes the checks of `TestApply_disableBackup`: exit code 0,
the state file decodes to a state with the updated resource, and there is no
file at the state path plus the default backup extension. -/
theorem TestApply_disableBackup_holds :
    (ApplyCommand.Run ".backup" originalFiles "terraform.tfstate" (some "-")
        [applyStateStep]).2 = 0
      ∧ (((ApplyCommand.Run ".backup" originalFiles "terraform.tfstate" (some "-")
            [applyStateStep]).1 "terraform.tfstate").bind ReadState).map
          (fun s => ((GoMap.lookup s.RootModule.Resources "test_instance.foo").bind
            (fun r => r.Primary)).map (fun i => (i.ID, i.Attributes)))
        = some (some ("bar", [("ami", "bar")]))
      ∧ (ApplyCommand.Run ".backup" originalFiles "terraform.tfstate" (some "-")
            [applyStateStep]).1 ("terraform.tfstate" ++ ".backup") = none := by
  decide

/-! ## Theorems: the test of the Diff encoding -/

set_option maxRecDepth 100000 in
/-- The model of the encoding passes `TestReadWriteDiff`: the test Diff is
written without error and read back equal. -/
theorem TestReadWriteDiff_holds :
    (WriteDiff testDiff []).2 = none
      ∧ ReadDiff (WriteDiff testDiff []).1 = (some testDiff, none, []) := by
  refine ⟨rfl, ?_⟩
  decide

/-! ## Theorems: NilHook, MockHook, sequences of stopHook invocations -/

/-- C13: each of the ten NilHook callbacks returns `(HookActionContinue, nil)`
for every argument tuple, a nil state, a nil diff and a non-nil error passed
to `PostApply` included. -/
theorem NilHook_callbacks_spec (h : NilHook) (n p : String)
    (s : Option InstanceState) (d : Option InstanceDiff) (e : GoError) :
    h.PreApply n s d = (HookActionContinue, none)
      ∧ h.PostApply n s e = (HookActionContinue, none)
      ∧ h.PreDiff n s = (HookActionContinue, none)
      ∧ h.PostDiff n d = (HookActionContinue, none)
      ∧ h.PreProvisionResource n s = (HookActionContinue, none)
      ∧ h.PostProvisionResource n s = (HookActionContinue, none)
      ∧ h.PreProvision n p = (HookActionContinue, none)
      ∧ h.PostProvision n p = (HookActionContinue, none)
      ∧ h.PreRefresh n s = (HookActionContinue, none)
      ∧ h.PostRefresh n s = (HookActionContinue, none)
      ∧ h.PreApply n none none = (HookActionContinue, none)
      ∧ h.PostApply n none (some p) = (HookActionContinue, none) := by
  exact ⟨rfl, rfl, rfl, rfl, rfl, rfl, rfl, rfl, rfl, rfl, rfl, rfl⟩

/-- C14: after each of the ten MockHook callbacks the callback's `Called`
flag is true, its recorded-argument fields hold the arguments of this call,
and the call returns the `Return` and error configured for the callback in
the receiver before the call (for `PostApply` the error returned is
`PostApplyReturnError`; `PostApplyError` records the argument). -/
theorem MockHook_callbacks_spec (h : MockHook) (n p : String)
    (s : Option InstanceState) (d : Option InstanceDiff) (e : GoError) :
    ((h.PreApply n s d).1.PreApplyCalled = true
        ∧ (h.PreApply n s d).1.PreApplyId = n
        ∧ (h.PreApply n s d).1.PreApplyDiff = d
        ∧ (h.PreApply n s d).1.PreApplyState = s
        ∧ (h.PreApply n s d).2 = (h.PreApplyReturn, h.PreApplyError))
      ∧ ((h.PostApply n s e).1.PostApplyCalled = true
        ∧ (h.PostApply n s e).1.PostApplyId = n
        ∧ (h.PostApply n s e).1.PostApplyState = s
        ∧ (h.PostApply n s e).1.PostApplyError = e
        ∧ (h.PostApply n s e).2 = (h.PostApplyReturn, h.PostApplyReturnError))
      ∧ ((h.PreDiff n s).1.PreDiffCalled = true
        ∧ (h.PreDiff n s).1.PreDiffId = n
        ∧ (h.PreDiff n s).1.PreDiffState = s
        ∧ (h.PreDiff n s).2 = (h.PreDiffReturn, h.PreDiffError))
      ∧ ((h.PostDiff n d).1.PostDiffCalled = true
        ∧ (h.PostDiff n d).1.PostDiffId = n
        ∧ (h.PostDiff n d).1.PostDiffDiff = d
        ∧ (h.PostDiff n d).2 = (h.PostDiffReturn, h.PostDiffError))
      ∧ ((h.PreProvisionResource n s).1.PreProvisionResourceCalled = true
        ∧ (h.PreProvisionResource n s).1.PreProvisionResourceId = n
        ∧ (h.PreProvisionResource n s).1.PreProvisionInstanceState = s
        ∧ (h.PreProvisionResource n s).2 = (h.PreProvisionResourceReturn, h.PreProvisionResourceError))
      ∧ ((h.PostProvisionResource n s).1.PostProvisionResourceCalled = true
        ∧ (h.PostProvisionResource n s).1.PostProvisionResourceId = n
        ∧ (h.PostProvisionResource n s).1.PostProvisionInstanceState = s
        ∧ (h.PostProvisionResource n s).2 = (h.PostProvisionResourceReturn, h.PostProvisionResourceError))
      ∧ ((h.PreProvision n p).1.PreProvisionCalled = true
        ∧ (h.PreProvision n p).1.PreProvisionId = n
        ∧ (h.PreProvision n p).1.PreProvisionProvisionerId = p
        ∧ (h.PreProvision n p).2 = (h.PreProvisionReturn, h.PreProvisionError))
      ∧ ((h.PostProvision n p).1.PostProvisionCalled = true
        ∧ (h.PostProvision n p).1.PostProvisionId = n
        ∧ (h.PostProvision n p).1.PostProvisionProvisionerId = p
        ∧ (h.PostProvision n p).2 = (h.PostProvisionReturn, h.PostProvisionError))
      ∧ ((h.PreRefresh n s).1.PreRefreshCalled = true
        ∧ (h.PreRefresh n s).1.PreRefreshId = n
        ∧ (h.PreRefresh n s).1.PreRefreshState = s
        ∧ (h.PreRefresh n s).2 = (h.PreRefreshReturn, h.PreRefreshError))
      ∧ ((h.PostRefresh n s).1.PostRefreshCalled = true
        ∧ (h.PostRefresh n s).1.PostRefreshId = n
        ∧ (h.PostRefresh n s).1.PostRefreshState = s
        ∧ (h.PostRefresh n s).2 = (h.PostRefreshReturn, h.PostRefreshError)) := by
  exact ⟨⟨rfl, rfl, rfl, rfl, rfl⟩, ⟨rfl, rfl, rfl, rfl, rfl⟩, ⟨rfl, rfl, rfl, rfl⟩,
    ⟨rfl, rfl, rfl, rfl⟩, ⟨rfl, rfl, rfl, rfl⟩, ⟨rfl, rfl, rfl, rfl⟩, ⟨rfl, rfl, rfl, rfl⟩,
    ⟨rfl, rfl, rfl, rfl⟩, ⟨rfl, rfl, rfl, rfl⟩, ⟨rfl, rfl, rfl, rfl⟩⟩

/-- The receiver after one more invocation. -/
theorem stopHook.run_concat (h : stopHook) (ops : List StopOp) (op : StopOp) :
    h.run (ops ++ [op]) = (h.run ops).step op := by
  simp [stopHook.run, List.foldl_append]

/-- A sequence extended by one invocation contains a `Stop` with no later
`Reset` iff the invocation is `Stop`, or it is not `Reset` and the sequence
before it already did. -/
theorem stopRequested_concat (ops : List StopOp) (op : StopOp) :
    stopRequested (ops ++ [op]) ↔
      op = StopOp.Stop ∨ (op ≠ StopOp.Reset ∧ stopRequested ops) := by
  constructor
  · rintro ⟨pre, post, heq, hpost⟩
    rcases List.eq_nil_or_concat post with hnil | ⟨L, b, hL⟩
    · subst hnil
      have := List.append_inj' heq rfl
      left
      simpa using this.2
    · subst hL
      have heq2 : ops ++ [op] = (pre ++ StopOp.Stop :: L) ++ [b] := by
        simpa [List.concat_eq_append] using heq
      have := List.append_inj' heq2 rfl
      have hb : op = b := by simpa using this.2
      right
      refine ⟨?_, pre, L, this.1, ?_⟩
      · intro h
        apply hpost
        simp [List.concat_eq_append, ← hb, h]
      · intro h
        apply hpost
        simp [List.concat_eq_append, h]
  · rintro (h | ⟨hne, pre, post, heq, hpost⟩)
    · exact ⟨ops, [], by simp [h], by simp⟩
    · refine ⟨pre, post ++ [op], by simp [heq], ?_⟩
      intro h
      rcases List.mem_append.1 h with h | h
      · exact hpost h
      · have hop : StopOp.Reset = op := by simpa using h
        exact hne hop.symm

/-- C19: starting from a zero-value stopHook, after every finite sequence of
`Stop`, `Reset`, `Stopped` and Hook-callback invocations the `stop` field is
0 or 1; an invocation other than `Stop` and `Reset` leaves the receiver as it
was; and `Stopped()` is true iff the sequence contains a `Stop` with no later
`Reset`, so a zero-value stopHook is not stopped. -/
theorem stopHook_run_spec (ops : List StopOp) :
    ((stopHook.zero.run ops).stop = 0 ∨ (stopHook.zero.run ops).stop = 1)
      ∧ (∀ (h : stopHook) (op : StopOp), op ≠ StopOp.Stop → op ≠ StopOp.Reset →
            h.step op = h)
      ∧ ((stopHook.zero.run ops).Stopped = true ↔ stopRequested ops)
      ∧ stopHook.zero.Stopped = false := by
  refine ⟨?_, ?_, ?_, rfl⟩
  · induction ops using List.reverseRecOn with
    | nil => exact Or.inl rfl
    | append_singleton l a ih =>
      rw [stopHook.run_concat]
      cases a <;> first | exact ih | exact Or.inl rfl | exact Or.inr rfl
  · intro h op h1 h2
    cases op <;> first | rfl | exact absurd rfl h1 | exact absurd rfl h2
  · induction ops using List.reverseRecOn with
    | nil =>
      constructor
      · intro h
        exact absurd h (by decide)
      · rintro ⟨pre, post, heq, _⟩
        cases pre <;> simp at heq
    | append_singleton l a ih =>
      rw [stopHook.run_concat, stopRequested_concat]
      cases a <;>
        first
        | (simp only [stopHook.step, reduceCtorEq, ne_eq, not_false_eq_true, true_and,
            false_or]; exact ih)
        | simp [stopHook.step, stopHook.Reset, stopHook.Stop, stopHook.Stopped]

/-- C20: for every action byte other than `HookActionContinue` (0) and
`HookActionHalt` (1), that is every value 2..255, and for every `err`,
`handleHook` returns normally, as it does for `HookActionContinue`. -/
theorem handleHook_other_spec (a : HookAction) (err : GoError) (h2 : 2 ≤ a.val) :
    a.val ≤ 255
      ∧ handleHook a err = Except.ok ()
      ∧ handleHook a err = handleHook HookActionContinue err := by
  have h0 : a ≠ HookActionContinue := by
    intro h
    rw [h] at h2
    exact absurd h2 (by decide)
  have h1 : a ≠ HookActionHalt := by
    intro h
    rw [h] at h2
    exact absurd h2 (by decide)
  refine ⟨by omega, ?_, ?_⟩
  · simp [handleHook, h0, h1]
  · simp [handleHook, h0, h1]

/-- C20 at the action byte 2 with a non-nil error. -/
theorem handleHook_other_spec_witness :
    2 ≤ (2 : HookAction).val
      ∧ ((2 : HookAction).val ≤ 255
        ∧ handleHook 2 (some "hook error") = Except.ok ()
        ∧ handleHook 2 (some "hook error")
            = handleHook HookActionContinue (some "hook error")) :=
  ⟨by decide, handleHook_other_spec 2 (some "hook error") (by decide)⟩

/-! ## Theorems: sort.Strings -/

/-- Characters with the same code point are equal. -/
theorem char_eq_of_toNat_eq (a b : Char) (h : a.toNat = b.toNat) : a = b := by
  rw [← Char.ofNat_toNat a, ← Char.ofNat_toNat b, h]

/-- The order is total. -/
theorem lexLE_total (a b : List Char) : lexLE a b = true ∨ lexLE b a = true := by
  induction a generalizing b with
  | nil => exact Or.inl rfl
  | cons x xs ih =>
    cases b with
    | nil => exact Or.inr rfl
    | cons y ys =>
      simp only [lexLE]
      by_cases h1 : x.toNat < y.toNat
      · simp [h1]
      · by_cases h2 : y.toNat < x.toNat
        · simp [h2]
        · simpa [h1, h2] using ih ys

/-- The order is transitive. -/
theorem lexLE_trans (a b c : List Char) (hab : lexLE a b = true)
    (hbc : lexLE b c = true) : lexLE a c = true := by
  induction a generalizing b c with
  | nil => rfl
  | cons x xs ih =>
    cases b with
    | nil => simp [lexLE] at hab
    | cons y ys =>
      cases c with
      | nil => simp [lexLE] at hbc
      | cons z zs =>
        simp only [lexLE] at hab hbc ⊢
        by_cases h1 : x.toNat < y.toNat
        · by_cases h2 : y.toNat < z.toNat
          · have : x.toNat < z.toNat := by omega
            simp [this]
          · by_cases h3 : z.toNat < y.toNat
            · simp [h2, h3] at hbc
            · have : x.toNat < z.toNat := by omega
              simp [this]
        · by_cases h1b : y.toNat < x.toNat
          · simp [h1, h1b] at hab
          · simp only [h1, h1b, if_false] at hab
            by_cases h2 : y.toNat < z.toNat
            · have : x.toNat < z.toNat := by omega
              simp [this]
            · by_cases h3 : z.toNat < y.toNat
              · simp [h2, h3] at hbc
              · simp only [h2, h3, if_false] at hbc
                have e1 : ¬ x.toNat < z.toNat := by omega
                have e2 : ¬ z.toNat < x.toNat := by omega
                simp only [e1, e2, if_false]
                exact ih ys zs hab hbc

/-- The order is antisymmetric. -/
theorem lexLE_antisymm (a b : List Char) (hab : lexLE a b = true)
    (hba : lexLE b a = true) : a = b := by
  induction a generalizing b with
  | nil =>
    cases b with
    | nil => rfl
    | cons y ys => simp [lexLE] at hba
  | cons x xs ih =>
    cases b with
    | nil => simp [lexLE] at hab
    | cons y ys =>
      simp only [lexLE] at hab hba
      by_cases h1 : x.toNat < y.toNat
      · have h2 : ¬ y.toNat < x.toNat := by omega
        simp [h1, h2] at hba
      · by_cases h2 : y.toNat < x.toNat
        · simp [h1, h2] at hab
        · simp only [h1, h2, if_false] at hab hba
          have hxy : x = y := char_eq_of_toNat_eq x y (by omega)
          rw [hxy, ih ys hab hba]

/-- The sorted strings are the given strings, reordered. -/
theorem sortStrings_perm (l : List String) : (sortStrings l).Perm l :=
  List.perm_insertionSort strLE l

/-- The sorted strings are in increasing order. -/
theorem sortStrings_sorted (l : List String) : List.Sorted strLE (sortStrings l) :=
  @List.sorted_insertionSort _ strLE _ ⟨fun a b => lexLE_total a.data b.data⟩
    ⟨fun a b c hab hbc => lexLE_trans a.data b.data c.data hab hbc⟩ l

/-- Sorting does not depend on the order of the input. -/
theorem sortStrings_eq_of_perm (l1 l2 : List String) (h : l1.Perm l2) :
    sortStrings l1 = sortStrings l2 :=
  @List.eq_of_perm_of_sorted _ strLE
    ⟨fun a b hab hba => String.ext (lexLE_antisymm a.data b.data hab hba)⟩ _ _
    (((sortStrings_perm l1).trans h).trans (sortStrings_perm l2).symm)
    (sortStrings_sorted l1) (sortStrings_sorted l2)

/-! ## Theorems: text rendering of a Diff -/

/-- In a map, an entry is stored iff lookup of its key finds its value. -/
theorem GoMap.mem_iff_lookup {V : Type} (m : GoMap V) (hwf : (GoMap.keys m).Nodup)
    (k : String) (v : V) : (k, v) ∈ m ↔ GoMap.lookup m k = some v := by
  induction m with
  | nil => simp [GoMap.lookup]
  | cons kv tl ih =>
    have hnd : kv.1 ∉ GoMap.keys tl ∧ (GoMap.keys tl).Nodup := by
      simpa [GoMap.keys] using hwf
    by_cases h : kv.1 = k
    · have hb : (kv.1 == k) = true := by simpa using h
      have hl : GoMap.lookup (kv :: tl) k = some kv.2 := by
        simp [GoMap.lookup, List.find?, hb]
      rw [hl, List.mem_cons]
      constructor
      · rintro (heq | hmem)
        · rw [← heq]
        · exfalso
          apply hnd.1
          rw [h]
          exact List.mem_map.2 ⟨(k, v), hmem, rfl⟩
      · intro hv
        left
        have hv2 : kv.2 = v := by simpa using hv
        rw [← h, ← hv2]
    · have hb : (kv.1 == k) = false := by simpa using h
      have hl : GoMap.lookup (kv :: tl) k = GoMap.lookup tl k := by
        simp [GoMap.lookup, List.find?, hb]
      rw [hl, List.mem_cons, ← ih hnd.2]
      constructor
      · rintro (heq | hmem)
        · exact absurd (by rw [← heq]) h
        · exact hmem
      · exact Or.inr

/-- What the Boolean comparison of two maps establishes. -/
theorem GoMap.sameContents_spec {V : Type} (eqv : V → V → Bool) (m1 m2 : GoMap V)
    (h : GoMap.sameContents eqv m1 m2 = true) :
    (GoMap.keys m1).Nodup ∧ (GoMap.keys m2).Nodup
      ∧ (GoMap.keys m1).Perm (GoMap.keys m2)
      ∧ (∀ k ∈ GoMap.keys m1, ∃ a b, GoMap.lookup m1 k = some a
            ∧ GoMap.lookup m2 k = some b ∧ eqv a b = true) := by
  simp only [GoMap.sameContents, Bool.and_eq_true, decide_eq_true_eq, List.all_eq_true,
    List.contains_eq_any_beq, List.any_eq_true, beq_iff_eq, exists_eq_right'] at h
  obtain ⟨⟨⟨hn1, hn2⟩, h12⟩, h21⟩ := h
  have hval : ∀ k ∈ GoMap.keys m1, ∃ a b, GoMap.lookup m1 k = some a
      ∧ GoMap.lookup m2 k = some b ∧ eqv a b = true := by
    intro k hk
    have := h12 k hk
    cases h1 : GoMap.lookup m1 k with
    | none => simp [h1] at this
    | some a =>
      cases h2 : GoMap.lookup m2 k with
      | none => simp [h1, h2] at this
      | some b =>
        simp only [h1, h2] at this
        exact ⟨a, b, rfl, rfl, this⟩
  refine ⟨hn1, hn2, ?_, hval⟩
  rw [List.perm_ext_iff_of_nodup hn1 hn2]
  intro k
  constructor
  · intro hk
    obtain ⟨a, b, _, hb, _⟩ := hval k hk
    exact GoMap.mem_keys_of_lookup m2 k b hb
  · exact h21 k

/-- Two InstanceDiffs with the same contents are shown by the same lines. -/
theorem resourceLines_eq_of_sameContents (name : String) (a b : InstanceDiff)
    (h : InstanceDiff.sameContents a b = true) :
    resourceLines name a = resourceLines name b := by
  simp only [InstanceDiff.sameContents, Bool.and_eq_true, beq_iff_eq] at h
  obtain ⟨hd, hm⟩ := h
  obtain ⟨hn1, hn2, hperm, hval⟩ := GoMap.sameContents_spec _ _ _ hm
  have hlook : ∀ k ∈ GoMap.keys a.Attributes,
      GoMap.lookup a.Attributes k = GoMap.lookup b.Attributes k := by
    intro k hk
    obtain ⟨x, y, hx, hy, hxy⟩ := hval k hk
    have : x = y := by simpa using hxy
    rw [hx, hy, this]
  have hnames : a.attrNames = b.attrNames :=
    sortStrings_eq_of_perm _ _ hperm
  have hlen : a.keyLen = b.keyLen := by
    simp only [InstanceDiff.keyLen, hnames]
  have hmem : ∀ kv : String × ResourceAttrDiff, kv ∈ a.Attributes ↔ kv ∈ b.Attributes := by
    rintro ⟨k, v⟩
    rw [GoMap.mem_iff_lookup _ hn1, GoMap.mem_iff_lookup _ hn2]
    by_cases hk : k ∈ GoMap.keys a.Attributes
    · rw [hlook k hk]
    · have hk2 : k ∉ GoMap.keys b.Attributes := fun hk2 => hk (hperm.symm.subset hk2)
      constructor
      · intro hv
        exact absurd (GoMap.mem_keys_of_lookup _ _ _ hv) hk
      · intro hv
        exact absurd (GoMap.mem_keys_of_lookup _ _ _ hv) hk2
  have hreq : InstanceDiff.RequiresNew (some a) = InstanceDiff.RequiresNew (some b) := by
    rw [Bool.eq_iff_iff]
    simp only [InstanceDiff.RequiresNew, List.any_eq_true]
    constructor
    · rintro ⟨kv, hkv, hp⟩
      exact ⟨kv, (hmem kv).1 hkv, hp⟩
    · rintro ⟨kv, hkv, hp⟩
      exact ⟨kv, (hmem kv).2 hkv, hp⟩
  have hlabel : crudLabel a = crudLabel b := by
    simp only [crudLabel, hd, hreq]
  have hattrs : a.attrNames.filterMap
        (fun k => (GoMap.lookup a.Attributes k).map (attrLine a.keyLen k))
      = b.attrNames.filterMap
        (fun k => (GoMap.lookup b.Attributes k).map (attrLine b.keyLen k)) := by
    rw [← hnames, ← hlen]
    apply List.filterMap_congr
    intro k hk
    have hk2 : k ∈ GoMap.keys a.Attributes := (sortStrings_perm _).subset hk
    rw [hlook k hk2]
  simp only [resourceLines, hlabel, hattrs]

/-- Two Diffs with the same contents are shown by the same lines. -/
theorem Diff.lines_eq_of_sameContents (d1 d2 : Diff)
    (h : Diff.sameContents d1 d2 = true) : d1.lines = d2.lines := by
  obtain ⟨_, _, hperm, hval⟩ := GoMap.sameContents_spec _ _ _ h
  have hnames : d1.names = d2.names := sortStrings_eq_of_perm _ _ hperm
  simp only [Diff.lines, ← hnames]
  apply List.flatMap_congr
  intro name hname
  have hk : name ∈ GoMap.keys d1.Resources := (sortStrings_perm _).subset hname
  obtain ⟨x, y, hx, hy, hxy⟩ := hval name hk
  simp only [Diff.block, hx, hy]
  cases x with
  | none =>
    cases y with
    | none => rfl
    | some b => simp [InstanceDiff.sameContentsPtr] at hxy
  | some a =>
    cases y with
    | none => simp [InstanceDiff.sameContentsPtr] at hxy
    | some b => exact resourceLines_eq_of_sameContents name a b hxy

/-- Joining onto an accumulator. -/
theorem join_foldl_acc (l : List String) (acc : String) :
    List.foldl (fun r s => r ++ s) acc l = acc ++ String.join l := by
  induction l generalizing acc with
  | nil => simp [String.join]
  | cons x xs ih =>
    simp only [String.join, List.foldl_cons]
    rw [ih, ih ("" ++ x), String.empty_append, String.append_assoc]

/-- Joining two runs of lines. -/
theorem join_append (a b : List String) :
    String.join (a ++ b) = String.join a ++ String.join b := by
  simp only [String.join, List.foldl_append]
  exact join_foldl_acc b _

/-- In a list sorted by an antisymmetric order, of two different members the
smaller one comes first. -/
theorem pairwise_split {α : Type} (R : α → α → Prop)
    (hanti : ∀ x y, R x y → R y x → x = y) (l : List α) (hl : l.Pairwise R)
    (x y : α) (hx : x ∈ l) (hy : y ∈ l) (hne : x ≠ y) (hxy : R x y) :
    ∃ a b c, l = a ++ x :: (b ++ y :: c) := by
  induction l with
  | nil => cases hx
  | cons h t ih =>
    rw [List.pairwise_cons] at hl
    rcases List.mem_cons.1 hx with hxh | hxt
    · rcases List.mem_cons.1 hy with hyh | hyt
      · exact absurd (hxh.trans hyh.symm) hne
      · obtain ⟨b, c, hbc⟩ := List.append_of_mem hyt
        exact ⟨[], b, c, by rw [hxh, hbc]; rfl⟩
    · rcases List.mem_cons.1 hy with hyh | hyt
      · have hyx : R y x := by
          rw [hyh]
          exact hl.1 x hxt
        exact absurd (hanti x y hxy hyx) hne
      · obtain ⟨a, b, c, habc⟩ := ih hl.2 hxt hyt
        exact ⟨h :: a, b, c, by rw [habc]; rfl⟩

/-- The order `sort.Strings` sorts by is antisymmetric. -/
theorem strLE_antisymm (x y : String) (hxy : strLE x y) (hyx : strLE y x) : x = y :=
  String.ext (lexLE_antisymm x.data y.data hxy hyx)

/-- C11: `d.String()` shows the resources in lexicographic order of their
address and, within a resource, the attributes in lexicographic order of
their name. The addresses shown are the keys of the map, sorted, and the text
is, for each of them in that order, the lines of the resource stored under
it; of two stored resources, the text of the one with the smaller address
comes first; within the lines of a resource, of two stored attributes the
line of the one with the smaller name comes first; and two Diffs with the
same contents, whatever the order of their entries, give the same string. -/
theorem Diff_String_order_spec :
    (∀ d : Diff, List.Sorted strLE d.names ∧ d.names.Perm (GoMap.keys d.Resources)
        ∧ Diff.String d = String.join (d.names.flatMap (fun name =>
            match GoMap.lookup d.Resources name with
            | some r => resourceLines name (r.getD InstanceDiff.zero)
            | none => [])))
      ∧ (∀ (name : String) (r : InstanceDiff),
          List.Sorted strLE r.attrNames ∧ r.attrNames.Perm (GoMap.keys r.Attributes)
            ∧ resourceLines name r
                = (crudLabel r ++ ": " ++ name ++ "\n") ::
                    r.attrNames.filterMap
                      (fun k => (GoMap.lookup r.Attributes k).map (attrLine r.keyLen k)))
      ∧ (∀ (d : Diff) (n1 n2 : String) (r1 r2 : InstanceDiff),
          (GoMap.keys d.Resources).Nodup →
          (n1, some r1) ∈ d.Resources → (n2, some r2) ∈ d.Resources →
          n1 ≠ n2 → strLE n1 n2 →
          ∃ pre mid post : String,
            Diff.String d = pre ++ String.join (resourceLines n1 r1) ++ mid
              ++ String.join (resourceLines n2 r2) ++ post)
      ∧ (∀ (name : String) (r : InstanceDiff) (k1 k2 : String) (a1 a2 : ResourceAttrDiff),
          (GoMap.keys r.Attributes).Nodup →
          (k1, a1) ∈ r.Attributes → (k2, a2) ∈ r.Attributes →
          k1 ≠ k2 → strLE k1 k2 →
          ∃ pre mid post : List String,
            resourceLines name r
              = (crudLabel r ++ ": " ++ name ++ "\n") ::
                  (pre ++ attrLine r.keyLen k1 a1 :: (mid ++ attrLine r.keyLen k2 a2 :: post)))
      ∧ (∀ d1 d2 : Diff, Diff.sameContents d1 d2 = true →
          Diff.String d1 = Diff.String d2) := by
  refine ⟨fun d => ⟨sortStrings_sorted _, sortStrings_perm _, rfl⟩,
    fun name r => ⟨sortStrings_sorted _, sortStrings_perm _, rfl⟩, ?_, ?_, fun d1 d2 h => ?_⟩
  · intro d n1 n2 r1 r2 hwf h1 h2 hne hle
    have hl1 : GoMap.lookup d.Resources n1 = some (some r1) :=
      (GoMap.mem_iff_lookup _ hwf _ _).1 h1
    have hl2 : GoMap.lookup d.Resources n2 = some (some r2) :=
      (GoMap.mem_iff_lookup _ hwf _ _).1 h2
    have hm1 : n1 ∈ d.names :=
      (sortStrings_perm _).symm.subset (GoMap.mem_keys_of_lookup _ _ _ hl1)
    have hm2 : n2 ∈ d.names :=
      (sortStrings_perm _).symm.subset (GoMap.mem_keys_of_lookup _ _ _ hl2)
    obtain ⟨a, b, c, habc⟩ := pairwise_split strLE strLE_antisymm d.names
      (sortStrings_sorted _) n1 n2 hm1 hm2 hne hle
    have hb1 : d.block n1 = resourceLines n1 r1 := by
      simp only [Diff.block, hl1, Option.getD_some]
    have hb2 : d.block n2 = resourceLines n2 r2 := by
      simp only [Diff.block, hl2, Option.getD_some]
    refine ⟨String.join (a.flatMap d.block), String.join (b.flatMap d.block),
      String.join (c.flatMap d.block), ?_⟩
    simp only [Diff.String, Diff.lines, habc, List.flatMap_append, List.flatMap_cons,
      join_append, hb1, hb2, String.append_assoc]
  · intro name r k1 k2 a1 a2 hwf h1 h2 hne hle
    have hl1 : GoMap.lookup r.Attributes k1 = some a1 :=
      (GoMap.mem_iff_lookup _ hwf _ _).1 h1
    have hl2 : GoMap.lookup r.Attributes k2 = some a2 :=
      (GoMap.mem_iff_lookup _ hwf _ _).1 h2
    have hm1 : k1 ∈ r.attrNames :=
      (sortStrings_perm _).symm.subset (GoMap.mem_keys_of_lookup _ _ _ hl1)
    have hm2 : k2 ∈ r.attrNames :=
      (sortStrings_perm _).symm.subset (GoMap.mem_keys_of_lookup _ _ _ hl2)
    obtain ⟨a, b, c, habc⟩ := pairwise_split strLE strLE_antisymm r.attrNames
      (sortStrings_sorted _) k1 k2 hm1 hm2 hne hle
    refine ⟨a.filterMap (fun k => (GoMap.lookup r.Attributes k).map (attrLine r.keyLen k)),
      b.filterMap (fun k => (GoMap.lookup r.Attributes k).map (attrLine r.keyLen k)),
      c.filterMap (fun k => (GoMap.lookup r.Attributes k).map (attrLine r.keyLen k)), ?_⟩
    simp only [resourceLines, habc, List.filterMap_append, List.filterMap_cons, hl1, hl2,
      Option.map_some']
  · simp only [Diff.String, Diff.lines_eq_of_sameContents d1 d2 h]

set_option maxRecDepth 100000 in
/-- On a Diff that stores `nodeB` before `nodeA`, and attribute `b` before
`a`, `String` shows `nodeA` first and `a` before `b`. -/
theorem Diff_String_twoResourceDiff :
    Diff.String twoResourceDiff
      = "DESTROY: nodeA\nUPDATE: nodeB\n  a: \"3\" => \"4\"\n  b: \"1\" => \"2\"\n" := by
  decide

set_option maxRecDepth 100000 in
/-- The model of `String` passes `TestDiff_String`, also with the attributes
of the resource in another iteration order. -/
theorem TestDiff_String_holds :
    Diff.String testDiff = diffStrBasic
      ∧ Diff.sameContents testDiff testDiffReordered = true
      ∧ Diff.String testDiffReordered = diffStrBasic := by
  decide

/-- The characters of an attribute line: lead, quoted new value, annotation,
line break. -/
theorem attrLine_data (keyLen : Nat) (k : String) (a : ResourceAttrDiff) :
    (attrLine keyLen k a).data
      = ((attrLead keyLen k a.Old).data ++ '"' :: (attrNewValue a).data) ++
          '"' :: ((attrSuffix a).data ++ ['\n']) := by
  simp only [attrLine, quoteString, String.data_append]
  simp

/-- C12: every attribute of every resource of a Diff is shown by its line;
when newComputed is true the new value shown is the sentinel `<computed>` and
the line does not depend on the New string; when newComputed is false the New
string is shown; and the line ends with ` (forces new resource)` iff
requiresNew is true. -/
theorem Diff_String_attr_spec :
    (∀ (d : Diff) (name : String) (r : InstanceDiff) (k : String) (a : ResourceAttrDiff),
        (GoMap.keys d.Resources).Nodup → (name, some r) ∈ d.Resources →
        (GoMap.keys r.Attributes).Nodup → (k, a) ∈ r.Attributes →
        attrLine r.keyLen k a ∈ d.lines)
      ∧ (∀ (keyLen : Nat) (k : String) (a : ResourceAttrDiff), a.NewComputed = true →
          attrLine keyLen k a
              = attrLead keyLen k a.Old ++ quoteString "<computed>" ++ attrSuffix a ++ "\n"
            ∧ ∀ v : String, attrLine keyLen k { a with New := v } = attrLine keyLen k a)
      ∧ (∀ (keyLen : Nat) (k : String) (a : ResourceAttrDiff), a.NewComputed = false →
          attrLine keyLen k a
              = attrLead keyLen k a.Old ++ quoteString a.New ++ attrSuffix a ++ "\n")
      ∧ (∀ (keyLen : Nat) (k : String) (a : ResourceAttrDiff),
          (" (forces new resource)\n").data <:+ (attrLine keyLen k a).data
            ↔ a.RequiresNew = true) := by
  refine ⟨?_, ?_, ?_, ?_⟩
  · intro d name r k a hwf hr hwfr ha
    have hlr : GoMap.lookup d.Resources name = some (some r) :=
      (GoMap.mem_iff_lookup _ hwf _ _).1 hr
    have hla : GoMap.lookup r.Attributes k = some a :=
      (GoMap.mem_iff_lookup _ hwfr _ _).1 ha
    have hname : name ∈ d.names :=
      (sortStrings_perm _).symm.subset (GoMap.mem_keys_of_lookup _ _ _ hlr)
    have hk : k ∈ r.attrNames :=
      (sortStrings_perm _).symm.subset (GoMap.mem_keys_of_lookup _ _ _ hla)
    simp only [Diff.lines, List.mem_flatMap]
    refine ⟨name, hname, ?_⟩
    simp only [Diff.block, hlr, Option.getD_some, resourceLines]
    apply List.mem_cons_of_mem
    rw [List.mem_filterMap]
    exact ⟨k, hk, by rw [hla]; rfl⟩
  · intro keyLen k a hc
    refine ⟨by simp [attrLine, attrNewValue, hc], fun v => ?_⟩
    simp [attrLine, attrNewValue, attrSuffix, hc]
  · intro keyLen k a hc
    simp [attrLine, attrNewValue, hc]
  · intro keyLen k a
    rw [attrLine_data]
    cases hq : a.RequiresNew with
    | true =>
      simp only [attrSuffix, hq, if_true, iff_true]
      refine ⟨(attrLead keyLen k a.Old).data ++ '"' :: (attrNewValue a).data ++ ['"'], ?_⟩
      simp
    | false =>
      simp only [attrSuffix, hq, Bool.false_eq_true, if_false, iff_false]
      intro hsuf
      rw [← List.reverse_prefix] at hsuf
      have hrev : (((attrLead keyLen k a.Old).data ++ '"' :: (attrNewValue a).data) ++
          '"' :: (("" : String).data ++ ['\n'])).reverse
          = '\n' :: '"' :: ((attrLead keyLen k a.Old).data ++
              '"' :: (attrNewValue a).data).reverse := by
        simp
      rw [hrev] at hsuf
      have hs : (" (forces new resource)\n" : String).data.reverse
          = '\n' :: ')' :: (" (forces new resource" : String).data.reverse := by
        decide
      rw [hs, List.cons_prefix_cons, List.cons_prefix_cons] at hsuf
      exact absurd hsuf.2.1 (by decide)

end terraform

namespace google

open terraform

/-! ## Theorems: resource_compute_firewall.go -/

/-- C15: `resourceComputeFirewallAllowHash` gives the same hash code whatever
the order in which the ports set lists its elements: two allow entries with
the same protocol and port lists that are permutations of each other hash to
the same value (an entry without a `ports` key hashes as itself). -/
theorem resourceComputeFirewallAllowHash_perm (hashcodeString : String → Int)
    (protocol : String) (ports1 ports2 : List String) (h : ports1.Perm ports2) :
    resourceComputeFirewallAllowHash hashcodeString
        { protocol := protocol, ports := some ports1 }
      = resourceComputeFirewallAllowHash hashcodeString
        { protocol := protocol, ports := some ports2 } := by
  simp only [resourceComputeFirewallAllowHash, allowHashKey,
    sortStrings_eq_of_perm ports1 ports2 h]

/-- C15 at the ports `80, 443` listed in both orders. -/
theorem resourceComputeFirewallAllowHash_perm_witness :
    ["80", "443"].Perm ["443", "80"]
      ∧ resourceComputeFirewallAllowHash (fun s => (s.length : Int))
            { protocol := "tcp", ports := some ["80", "443"] }
          = resourceComputeFirewallAllowHash (fun s => (s.length : Int))
            { protocol := "tcp", ports := some ["443", "80"] } :=
  ⟨List.Perm.swap _ _ _,
   resourceComputeFirewallAllowHash_perm (fun s => (s.length : Int)) "tcp"
     ["80", "443"] ["443", "80"] (List.Perm.swap _ _ _)⟩

/-- C16: when the Get call succeeds, `resourceComputeFirewallRead` returns nil
and leaves the ID as it was; when Get fails with a googleapi error of code
404 it sets the ID to the empty string, leaves the other fields alone and
returns nil; for every other error it returns a non-nil error and leaves the
resource data as it was. -/
theorem resourceComputeFirewallRead_spec (config : Config) (d : ResourceData) :
    (config.clientCompute.FirewallsGet config.Project d.id = none →
        resourceComputeFirewallRead config d = (d, none))
      ∧ (∀ text, config.clientCompute.FirewallsGet config.Project d.id
            = some (ClientError.googleapi 404 text) →
          resourceComputeFirewallRead config d = ({ d with id := "" }, none))
      ∧ (∀ err, config.clientCompute.FirewallsGet config.Project d.id = some err →
          (∀ text, err ≠ ClientError.googleapi 404 text) →
          (resourceComputeFirewallRead config d).1 = d
            ∧ (resourceComputeFirewallRead config d).2
                = some ("Error reading firewall: " ++ err.Error)) := by
  refine ⟨fun h => ?_, fun text h => ?_, fun err h hne => ?_⟩
  · simp [resourceComputeFirewallRead, h]
  · simp [resourceComputeFirewallRead, h, ResourceData.SetId]
  · cases err with
    | googleapi code text =>
      have hc : code ≠ 404 := fun hc => hne text (by rw [hc])
      simp [resourceComputeFirewallRead, h, hc]
    | other text => simp [resourceComputeFirewallRead, h]

/-- C18: `resourceComputeFirewallCreate` returns an error and leaves the
resource data as it was when building the firewall or the Insert call fails;
once Insert has succeeded the ID is the firewall name, which is what remains
when waiting for the operation fails (an error is returned); when the
finished operation carries an error the ID is set to the empty string and
that error is returned; otherwise the result is that of
`resourceComputeFirewallRead` on the resource data with the ID set to the
firewall name. -/
theorem resourceComputeFirewallCreate_spec (config : Config) (d : ResourceData) :
    (∀ msg, resourceFirewall config d = Except.error msg →
        resourceComputeFirewallCreate config d = (d, some msg))
      ∧ (∀ fw err, resourceFirewall config d = Except.ok fw →
          config.clientCompute.FirewallsInsert config.Project fw = Except.error err →
          (resourceComputeFirewallCreate config d).1 = d
            ∧ (resourceComputeFirewallCreate config d).2
                = some ("Error creating firewall: " ++ err.Error))
      ∧ (∀ fw op msg, resourceFirewall config d = Except.ok fw →
          config.clientCompute.FirewallsInsert config.Project fw = Except.ok op →
          config.clientCompute.WaitForState op = Except.error msg →
          (resourceComputeFirewallCreate config d).1 = { d with id := fw.Name }
            ∧ (resourceComputeFirewallCreate config d).2
                = some ("Error waiting for firewall to create: " ++ msg))
      ∧ (∀ fw op done e, resourceFirewall config d = Except.ok fw →
          config.clientCompute.FirewallsInsert config.Project fw = Except.ok op →
          config.clientCompute.WaitForState op = Except.ok done →
          done.Error = some e →
          (resourceComputeFirewallCreate config d).1 = { d with id := "" }
            ∧ (resourceComputeFirewallCreate config d).2 = some e)
      ∧ (∀ fw op done, resourceFirewall config d = Except.ok fw →
          config.clientCompute.FirewallsInsert config.Project fw = Except.ok op →
          config.clientCompute.WaitForState op = Except.ok done →
          done.Error = none →
          resourceComputeFirewallCreate config d
            = resourceComputeFirewallRead config { d with id := fw.Name })
      ∧ (∀ fw, resourceFirewall config d = Except.ok fw → fw.Name = d.name) := by
  refine ⟨fun msg h => ?_, fun fw err h1 h2 => ?_, fun fw op msg h1 h2 h3 => ?_,
    fun fw op done e h1 h2 h3 h4 => ?_, fun fw op done h1 h2 h3 h4 => ?_, fun fw h => ?_⟩
  · simp [resourceComputeFirewallCreate, h]
  · simp [resourceComputeFirewallCreate, h1, h2]
  · simp [resourceComputeFirewallCreate, h1, h2, h3, ResourceData.SetId]
  · simp [resourceComputeFirewallCreate, h1, h2, h3, h4, ResourceData.SetId]
  · simp [resourceComputeFirewallCreate, h1, h2, h3, h4, ResourceData.SetId]
  · unfold resourceFirewall at h
    cases hn : config.clientCompute.NetworksGet config.Project d.network with
    | error err => simp [hn] at h
    | ok link =>
      simp only [hn, Except.ok.injEq] at h
      rw [← h]

/-- C21: the string that `resourceComputeFirewallAllowHash` gives to
`hashcode.String` does not determine the allow entry. The entry with protocol
`tcp-80` and no ports (no `ports` key, or an empty set) and the entry with
protocol `tcp` and the ports `80` are different entries with the same string
`tcp-80-`; and for every protocol, the entry without a `ports` key and the
one with an empty ports set have the same string. With the same string, the
hash is the same, whatever `hashcode.String` computes. -/
theorem allowHashKey_collision (hashcodeString : String → Int) :
    (({ protocol := "tcp-80", ports := none } : AllowEntry)
          ≠ { protocol := "tcp", ports := some ["80"] }
        ∧ ({ protocol := "tcp-80", ports := some [] } : AllowEntry)
          ≠ { protocol := "tcp", ports := some ["80"] }
        ∧ allowHashKey { protocol := "tcp-80", ports := none } = "tcp-80-"
        ∧ allowHashKey { protocol := "tcp-80", ports := some [] } = "tcp-80-"
        ∧ allowHashKey { protocol := "tcp", ports := some ["80"] } = "tcp-80-"
        ∧ resourceComputeFirewallAllowHash hashcodeString
              { protocol := "tcp-80", ports := none }
            = resourceComputeFirewallAllowHash hashcodeString
              { protocol := "tcp", ports := some ["80"] }
        ∧ resourceComputeFirewallAllowHash hashcodeString
              { protocol := "tcp-80", ports := some [] }
            = resourceComputeFirewallAllowHash hashcodeString
              { protocol := "tcp", ports := some ["80"] })
      ∧ (∀ protocol : String,
          ({ protocol := protocol, ports := none } : AllowEntry)
              ≠ { protocol := protocol, ports := some [] }
            ∧ allowHashKey { protocol := protocol, ports := none }
                = allowHashKey { protocol := protocol, ports := some [] }
            ∧ resourceComputeFirewallAllowHash hashcodeString
                  { protocol := protocol, ports := none }
                = resourceComputeFirewallAllowHash hashcodeString
                  { protocol := protocol, ports := some [] }) := by
  have k1 : allowHashKey { protocol := "tcp-80", ports := none } = "tcp-80-" := by decide
  have k2 : allowHashKey { protocol := "tcp-80", ports := some [] } = "tcp-80-" := by decide
  have k3 : allowHashKey { protocol := "tcp", ports := some ["80"] } = "tcp-80-" := by decide
  refine ⟨⟨by decide, by decide, k1, k2, k3, ?_, ?_⟩, fun protocol => ⟨?_, rfl, rfl⟩⟩
  · simp only [resourceComputeFirewallAllowHash, k1, k3]
  · simp only [resourceComputeFirewallAllowHash, k2, k3]
  · intro h
    have := congrArg AllowEntry.ports h
    simp at this

end google
